import Mathlib

/-!
Shallow embedding of the stereo video-player core
(`videoplayer-android/src/main/jni/video_player_app.cc`, class
`cardboard::VideoPlayerApp`).

Pixel values are modelled exactly: the 8-bit integer channels become `Nat`,
and the `CV_32F` float stage becomes `Rat` (the float operations used by the
code are multiplications, additions and clamps of small magnitudes, which the
rational model reproduces value-for-value up to float rounding; none of the
verified claims depends on float rounding).  A `cv::Mat` becomes an explicit
row/column header plus row-major data, matching the Mat header/data split.
Fallible OpenCV operations (out-of-range ROI rectangles, `cv::resize` on an
empty image or to a non-positive size, which raise `cv::Exception`) are
modelled with `Option`: `none` is a raised exception.
-/

namespace VideoPlayerApp

/-- One BGR pixel with channels of type `α` (OpenCV default channel order:
index 0 = blue, 1 = green, 2 = red, as used by the tint code). -/
structure Pix (α : Type) where
  b : α
  g : α
  r : α
deriving DecidableEq, Repr

/-- A `cv::Mat`-style image: explicit row and column counts plus row-major
pixel data. -/
structure Mat (α : Type) where
  rows : Nat
  cols : Nat
  data : List (List α)
deriving DecidableEq, Repr

/-- Rectangular well-formedness: the data really has `rows` rows of `cols`
entries, as every `cv::Mat` produced by OpenCV does. -/
def Mat.WF {α : Type} (m : Mat α) : Prop :=
  m.data.length = m.rows ∧ ∀ row ∈ m.data, row.length = m.cols

instance {α : Type} (m : Mat α) : Decidable m.WF := by
  unfold Mat.WF; infer_instance

/-- Channel-wise map over one pixel. -/
def Pix.cmap {α β : Type} (f : α → β) (p : Pix α) : Pix β :=
  ⟨f p.b, f p.g, f p.r⟩

/-- Pixel-wise map over an image. -/
def mapMat {α β : Type} (f : α → β) (m : Mat α) : Mat β :=
  ⟨m.rows, m.cols, m.data.map (List.map f)⟩

/-- The clamp `cv::max(0.0f, cv::min(1.0f, v))` used after the contrast and
tint stages. -/
def clamp01 (q : ℚ) : ℚ := max 0 (min 1 q)

/-- The conversion `input.convertTo(float_input, CV_32F, 1.0 / 255.0)`. -/
def toFloatMat (m : Mat (Pix ℕ)) : Mat (Pix ℚ) :=
  mapMat (Pix.cmap fun n : ℕ => (n : ℚ) / 255) m

/-- One channel of `result.convertTo(output, CV_8U, 255.0)`:
`saturate_cast<uchar>` of the scaled value (round, then clamp to [0,255];
OpenCV rounds halves to even, Mathlib `round` rounds halves up — the claims
checked here never hit a half). -/
def quantByte (q : ℚ) : ℕ := (min 255 (max 0 (round (q * 255)))).toNat

/-- The conversion `result.convertTo(output, CV_8U, 255.0)`. -/
def quantMat (m : Mat (Pix ℚ)) : Mat (Pix ℕ) :=
  mapMat (Pix.cmap quantByte) m

/-- Stage 1 of `ApplyEffects`: `if (settings.contrast != 1.0f) { result =
result * settings.contrast; result = cv::max(0.0f, cv::min(1.0f, result)); }`. -/
def contrastStage (c : ℚ) (m : Mat (Pix ℚ)) : Mat (Pix ℚ) :=
  if c = 1 then m else mapMat (Pix.cmap fun v => clamp01 (v * c)) m

/-- Stage 2 of `ApplyEffects`: add `red_tint * 0.3` to channel 2 and
`green_tint * 0.3` to channel 1 (each addition is guarded by that tint being
nonzero in the source; adding zero is written unconditionally here, which is
value-identical), then clamp all channels. -/
def tintStage (rt gt : ℚ) (m : Mat (Pix ℚ)) : Mat (Pix ℚ) :=
  if rt = 0 ∧ gt = 0 then m
  else
    mapMat (fun p =>
      ⟨clamp01 p.b, clamp01 (p.g + gt * (3 / 10)), clamp01 (p.r + rt * (3 / 10))⟩) m

/-- The `cv::COLOR_BGR2GRAY` luma formula `Y = 0.299 R + 0.587 G + 0.114 B`. -/
def bgr2gray (p : Pix ℚ) : ℚ :=
  299 / 1000 * p.r + 587 / 1000 * p.g + 114 / 1000 * p.b

/-- Weighted sum of `f 0, f 1, ...` with the listed weights (the inner loop of
a 1-D correlation). -/
def wsum : List ℚ → (ℕ → ℚ) → ℚ
  | [], _ => 0
  | w :: ws, f => w * f 0 + wsum ws fun i => f (i + 1)

/-- The `BORDER_REFLECT_101` index map used by `cv::GaussianBlur` (default
border): closed form of reflecting `gfedcb|abcdefgh|gfedcba` indexing. -/
def reflect101 (len : ℕ) (i : ℤ) : ℕ :=
  if len ≤ 1 then 0
  else
    let p : ℤ := 2 * ((len : ℤ) - 1)
    let r := i % p
    if r < len then r.toNat else (p - r).toNat

/-- Horizontal pass of the separable Gaussian filter over a single-channel
image, with kernel anchor 7 (kernel size 15). -/
def blurH (k : List ℚ) (m : Mat ℚ) : Mat ℚ :=
  ⟨m.rows, m.cols,
    (List.range m.rows).map fun y : ℕ =>
      (List.range m.cols).map fun x : ℕ =>
        wsum k fun i : ℕ =>
          (m.data.getD y []).getD (reflect101 m.cols ((x : ℤ) + (i : ℤ) - 7)) 0⟩

/-- Vertical pass of the separable Gaussian filter. -/
def blurV (k : List ℚ) (m : Mat ℚ) : Mat ℚ :=
  ⟨m.rows, m.cols,
    (List.range m.rows).map fun y : ℕ =>
      (List.range m.cols).map fun x : ℕ =>
        wsum k fun i : ℕ =>
          (m.data.getD (reflect101 m.rows ((y : ℤ) + (i : ℤ) - 7)) []).getD x 0⟩

/-- `cv::GaussianBlur(fog_mask, blurred, cv::Size(15, 15), 0)`: a separable
correlation with a 15-tap 1-D kernel `k` applied in each direction.  The exact
Gaussian weights for sigma 2.6 are transcendental (OpenCV computes them with
`exp` in doubles), so the kernel is a parameter here; every Gaussian kernel is
nonnegative and sums to 1, which is all the theorems assume. -/
def gaussianBlur15 (k : List ℚ) (m : Mat ℚ) : Mat ℚ :=
  blurV k (blurH k m)

/-- Stage 3 of `ApplyEffects`: when `fog_intensity > 0`, convert to gray,
Gaussian-blur, re-expand to BGR, and `cv::addWeighted(result,
1 - fog_intensity, fog_overlay, fog_intensity, 0, result)` (no clamp). -/
def fogStage (f : ℚ) (k : List ℚ) (m : Mat (Pix ℚ)) : Mat (Pix ℚ) :=
  if f ≤ 0 then m
  else
    let blurred := gaussianBlur15 k (mapMat bgr2gray m)
    ⟨m.rows, m.cols,
      (List.range m.rows).map fun y =>
        (List.range m.cols).map fun x : ℕ =>
          let p := (m.data.getD y []).getD x ⟨0, 0, 0⟩
          let v := (blurred.data.getD y []).getD x 0
          ⟨p.b * (1 - f) + v * f, p.g * (1 - f) + v * f, p.r * (1 - f) + v * f⟩⟩

/-- Clamp a source index to `[0, len)` the way `cv::resize` replicates edge
pixels. -/
def clampIdx (len : ℕ) (i : ℤ) : ℕ := min i.toNat (len - 1)

/-- Linear interpolation of two pixels with weight `t` on the second. -/
def lerpPix (t : ℚ) (p q : Pix ℚ) : Pix ℚ :=
  ⟨(1 - t) * p.b + t * q.b, (1 - t) * p.g + t * q.g, (1 - t) * p.r + t * q.r⟩

/-- One row of `cv::resize(..., INTER_LINEAR)` when only the width changes:
destination column `x` samples source coordinate `(x + 0.5) * srcW / dstW -
0.5` and blends the two neighbouring columns. -/
def resizeRow (row : List (Pix ℚ)) (srcW dstW : ℕ) : List (Pix ℚ) :=
  (List.range dstW).map fun x : ℕ =>
    let sx : ℚ := ((x : ℚ) + 1 / 2) * srcW / dstW - 1 / 2
    let x0 : ℤ := ⌊sx⌋
    lerpPix (sx - x0) (row.getD (clampIdx srcW x0) ⟨0, 0, 0⟩)
      (row.getD (clampIdx srcW (x0 + 1)) ⟨0, 0, 0⟩)

/-- `cv::resize(result, stretched, cv::Size(result.cols + a, result.rows))`:
fails (raises) on an empty source or a non-positive destination width. -/
def resizeHor (m : Mat (Pix ℚ)) (dstW : ℤ) : Option (Mat (Pix ℚ)) :=
  if m.rows = 0 ∨ m.cols = 0 ∨ dstW ≤ 0 then none
  else some ⟨m.rows, dstW.toNat, m.data.map fun row => resizeRow row m.cols dstW.toNat⟩

/-- A full-height ROI `mat(cv::Rect(x, 0, w, h))` (every Rect taken in the
source has `y = 0` and full height): `none` models the `CV_Assert` failure on
an out-of-range rectangle. -/
def cropRect {α : Type} (m : Mat α) (x w h : ℕ) : Option (Mat α) :=
  if x + w ≤ m.cols ∧ h ≤ m.rows then
    some ⟨h, w, (m.data.take h).map fun row => (row.drop x).take w⟩
  else none

/-- Truncation toward zero, the semantics of `static_cast<int>` on a float. -/
def ratTrunc (q : ℚ) : ℤ := if 0 ≤ q then ⌊q⌋ else ⌈q⌉

/-- Stage 4 of `ApplyEffects`: the directional stretch.  `stretch_amount =
static_cast<int>(settings.directional * 20)`; when nonzero the image is
resized to `cols + stretch_amount` and cropped back with
`Rect(0, 0, cols, rows)` for positive amounts and
`Rect(-stretch_amount, 0, cols, rows)` for negative ones. -/
def stretchStage (d : ℚ) (m : Mat (Pix ℚ)) : Option (Mat (Pix ℚ)) :=
  if d = 0 then some m
  else if ratTrunc (d * 20) = 0 then some m
  else
    (resizeHor m ((m.cols : ℤ) + ratTrunc (d * 20))).bind fun st =>
      if 0 < ratTrunc (d * 20) then cropRect st 0 m.cols m.rows
      else cropRect st (-ratTrunc (d * 20)).toNat m.cols m.rows

/-- The per-eye view of the effect settings built at the top of
`ApplyEffects`. -/
structure EyeSettings where
  enabled : Bool
  contrast : ℚ
  red_tint : ℚ
  green_tint : ℚ
  fog_intensity : ℚ
  directional : ℚ
deriving DecidableEq, Repr

/-- The float part of `ApplyEffects`: contrast, tint, fog, directional
stretch, in source order. -/
def floatPipeline (s : EyeSettings) (k : List ℚ) (m : Mat (Pix ℚ)) :
    Option (Mat (Pix ℚ)) :=
  stretchStage s.directional
    (fogStage s.fog_intensity k
      (tintStage s.red_tint s.green_tint (contrastStage s.contrast m)))

/-- `VideoPlayerApp::ApplyEffects`: an empty input returns with the output
(the fresh empty Mat supplied by the caller) untouched; otherwise the input
is normalized to float, run through the four stages, and re-quantized. -/
def applyEffects (s : EyeSettings) (k : List ℚ) (m : Mat (Pix ℕ)) :
    Option (Mat (Pix ℕ)) :=
  if m.rows = 0 ∨ m.cols = 0 then some ⟨0, 0, []⟩
  else (floatPipeline s k (toFloatMat m)).map quantMat

/-- The 12-field nested settings struct `VideoPlayerApp::EffectSettings`
(defaults as in the header). -/
structure EffectSettings where
  left_eye_enabled : Bool := true
  left_eye_contrast : ℚ := 1
  left_eye_red_tint : ℚ := 0
  left_eye_green_tint : ℚ := 0
  left_eye_fog_intensity : ℚ := 3 / 10
  left_eye_directional : ℚ := 0
  right_eye_enabled : Bool := false
  right_eye_contrast : ℚ := 1
  right_eye_red_tint : ℚ := 0
  right_eye_green_tint : ℚ := 0
  right_eye_fog_intensity : ℚ := 0
  right_eye_directional : ℚ := 0
deriving DecidableEq, Repr

/-- The left-eye aggregate built in `ApplyEffects` when `is_left_eye`. -/
def leftSettings (es : EffectSettings) : EyeSettings :=
  ⟨es.left_eye_enabled, es.left_eye_contrast, es.left_eye_red_tint,
    es.left_eye_green_tint, es.left_eye_fog_intensity, es.left_eye_directional⟩

/-- The right-eye aggregate built in `ApplyEffects` otherwise. -/
def rightSettings (es : EffectSettings) : EyeSettings :=
  ⟨es.right_eye_enabled, es.right_eye_contrast, es.right_eye_red_tint,
    es.right_eye_green_tint, es.right_eye_fog_intensity, es.right_eye_directional⟩

/-- `cv::Mat::zeros(rows, cols, type)` for a BGR byte image. -/
def zerosMat (rows cols : ℕ) : Mat (Pix ℕ) :=
  ⟨rows, cols, List.replicate rows (List.replicate cols ⟨0, 0, 0⟩)⟩

/-- Overwrite `src.length` entries of `dst` starting at column `x`. -/
def writeRow {α : Type} (dst src : List α) (x : ℕ) : List α :=
  dst.take x ++ src ++ dst.drop (x + src.length)

/-- Overwrite the rows of `dst` with the rows of `src`, each at column
offset `x` (the two ROIs written by `ProcessVideoFrame` start at row 0 and
span the full height). -/
def writeRows {α : Type} : List (List α) → List (List α) → ℕ → List (List α)
  | d, [], _ => d
  | [], _ :: _, _ => []
  | drow :: ds, srow :: ss, x => writeRow drow srow x :: writeRows ds ss x

/-- `src.copyTo(dst(cv::Rect(x, 0, w, h)))`: when the source size matches the
ROI the pixels are written in place; on a size mismatch `copyTo` reallocates
the temporary ROI header and `dst` is left untouched. -/
def copyToRect {α : Type} (dst src : Mat α) (x w h : ℕ) : Mat α :=
  if src.rows = h ∧ src.cols = w then ⟨dst.rows, dst.cols, writeRows dst.data src.data x⟩
  else dst

/-- `VideoPlayerApp::ProcessVideoFrame` (OpenCV variant): an empty input
returns with the output untouched (`none` here); otherwise the output starts
as zeros, and each half-width eye rectangle receives either
`ApplyEffects` of the matching input half (eye enabled) or a plain copy of it
(eye disabled). -/
def processVideoFrame (es : EffectSettings) (k : List ℚ) (input : Mat (Pix ℕ)) :
    Option (Mat (Pix ℕ)) :=
  if input.rows = 0 ∨ input.cols = 0 then none
  else
    (cropRect input 0 (input.cols / 2) input.rows).bind fun leftEye =>
    (if es.left_eye_enabled then applyEffects (leftSettings es) k leftEye
     else some leftEye).bind fun processedLeft =>
    (cropRect input (input.cols / 2) (input.cols / 2) input.rows).bind fun rightEye =>
    (if es.right_eye_enabled then applyEffects (rightSettings es) k rightEye
     else some rightEye).bind fun processedRight =>
    some (copyToRect
      (copyToRect (zerosMat input.rows input.cols) processedLeft 0
        (input.cols / 2) input.rows)
      processedRight (input.cols / 2) (input.cols / 2) input.rows)

/-!
The non-OpenCV build variant of `ProcessVideoFrame` works on raw RGBA byte
buffers addressed by flat index; a buffer is modelled as `ℕ → ℕ`
(byte at index). -/

/-- A single byte store `buf[i] = v`. -/
def writeByte (buf : ℕ → ℕ) (i v : ℕ) : ℕ → ℕ :=
  fun j => if j = i then v else buf j

/-- The four per-channel stores of one RGBA pixel copy. -/
def copyPixel (input : ℕ → ℕ) (srcIdx dstIdx : ℕ) (buf : ℕ → ℕ) : ℕ → ℕ :=
  writeByte (writeByte (writeByte (writeByte buf dstIdx (input srcIdx))
    (dstIdx + 1) (input (srcIdx + 1))) (dstIdx + 2) (input (srcIdx + 2)))
    (dstIdx + 3) (input (srcIdx + 3))

/-- The body of the inner loop: copy source pixel `(y, x)` of the left half
to the same position and to the position shifted right by `half_width`. -/
def processPixelRaw (input : ℕ → ℕ) (width halfW y x : ℕ) (buf : ℕ → ℕ) : ℕ → ℕ :=
  copyPixel input ((y * width + x) * 4) ((y * width + (x + halfW)) * 4)
    (copyPixel input ((y * width + x) * 4) ((y * width + x) * 4) buf)

/-- The inner loop over `x in [0, half_width)`. -/
def processRowRaw (input : ℕ → ℕ) (width halfW y : ℕ) (buf : ℕ → ℕ) : ℕ → ℕ :=
  (List.range halfW).foldl (fun b x => processPixelRaw input width halfW y x b) buf

/-- `VideoPlayerApp::ProcessVideoFrame` (non-OpenCV variant), for non-null
buffers: both output halves receive the left half of the input.  The null
pointer guard is outside this model (a `ℕ → ℕ` buffer is never null), and
the function reads no effect setting, mirroring the source body. -/
def processVideoFrameRaw (input : ℕ → ℕ) (width height : ℕ) (buf : ℕ → ℕ) : ℕ → ℕ :=
  (List.range height).foldl (fun b y => processRowRaw input width (width / 2) y b) buf

/-!
Lifecycle model for `VideoPlayerApp`: the GL / Cardboard-SDK facing state of
the class plus the observable calls a method issues, as a list of events.
Handles returned by the external allocators (`glCreateProgram`, `glGen*`,
`CardboardHeadTracker_create`, ...) are modelled by a single fresh-id counter
`next_handle`; a call returns the current counter value plus an offset, so
distinct creations yield distinct handles. -/

/-- Observable GL / Cardboard calls. -/
inductive GlEvent
  | getPose (tracker : Option ℕ)
  | bindTexture (tex : ℕ)
  | texSubImage (w h : ℕ)
  | renderEyeToDisplay (tex : ℕ) (w h : ℤ)
  | deleteProgram (p : ℕ)
  | deleteBuffer (b : ℕ)
  | deleteTexture (t : ℕ)
  | destroyLensDistortion (h : ℕ)
  | destroyDistortionRenderer (h : ℕ)
  | destroyHeadTracker (h : ℕ)
  | createHeadTracker (h : ℕ)
  | createLensDistortion (h : ℕ)
  | createDistortionRenderer (h : ℕ)
deriving DecidableEq, Repr

/-- The fields of `VideoPlayerApp` relevant to the lifecycle methods.  GL
handles are `ℕ` with `0 = null` (GLuint semantics); SDK pointers are
`Option ℕ` with `none = nullptr`.  `texture_contents` is the GPU-side image
of the one texture object, carried so uploads are observable. -/
structure AppState where
  program : ℕ
  vertex_buffer : ℕ
  texture_id : ℕ
  lens_distortion : Option ℕ
  distortion_renderer : Option ℕ
  head_tracker : Option ℕ
  processed_frame : Mat (Pix ℕ)
  frame_updated : Bool
  texture_contents : Mat (Pix ℕ)
  screen_width : ℤ
  screen_height : ℤ
  fov_degrees : ℚ
  video_uri : String
  effect_settings : EffectSettings
  next_handle : ℕ
deriving DecidableEq, Repr

/-- `VideoPlayerApp::RenderVideoFrame`: nothing happens unless
`frame_updated_` is set; then the texture is bound and, when the processed
frame is nonempty, its pixels are uploaded with `glTexSubImage2D` at origin
(0,0); `frame_updated_` is cleared in either case. -/
def renderVideoFrame (s : AppState) : AppState × List GlEvent :=
  if s.frame_updated = false then (s, [])
  else if s.processed_frame.rows = 0 ∨ s.processed_frame.cols = 0 then
    ({ s with frame_updated := false }, [GlEvent.bindTexture s.texture_id])
  else
    ({ s with frame_updated := false,
              texture_contents := copyToRect s.texture_contents s.processed_frame 0
                s.processed_frame.cols s.processed_frame.rows },
     [GlEvent.bindTexture s.texture_id,
      GlEvent.texSubImage s.processed_frame.cols s.processed_frame.rows])

/-- `VideoPlayerApp::OnDrawFrame`: returns immediately when the program or
the distortion renderer handle is null; otherwise queries the head pose
(with no null check on the tracker), runs `RenderVideoFrame`, and renders
through the distortion renderer. -/
def onDrawFrame (s : AppState) : AppState × List GlEvent :=
  if s.program = 0 ∨ s.distortion_renderer = none then (s, [])
  else
    ((renderVideoFrame s).1,
      GlEvent.getPose s.head_tracker :: (renderVideoFrame s).2 ++
        [GlEvent.renderEyeToDisplay s.texture_id s.screen_width s.screen_height])

/-- The destroy calls issued by `VideoPlayerApp::~VideoPlayerApp`, in source
order, each guarded by its handle being non-null. -/
def destructorEvents (s : AppState) : List GlEvent :=
  (if s.program ≠ 0 then [GlEvent.deleteProgram s.program] else []) ++
  (if s.vertex_buffer ≠ 0 then [GlEvent.deleteBuffer s.vertex_buffer] else []) ++
  (if s.texture_id ≠ 0 then [GlEvent.deleteTexture s.texture_id] else []) ++
  (match s.lens_distortion with
   | some h => [GlEvent.destroyLensDistortion h]
   | none => []) ++
  (match s.distortion_renderer with
   | some h => [GlEvent.destroyDistortionRenderer h]
   | none => []) ++
  (match s.head_tracker with
   | some h => [GlEvent.destroyHeadTracker h]
   | none => [])

/-- `VideoPlayerApp::InitializeGl`: allocates the program, vertex buffer and
texture, and initializes the texture with a black 512 by 512 buffer. -/
def initializeGl (s : AppState) : AppState :=
  { s with program := s.next_handle + 1,
           vertex_buffer := s.next_handle + 2,
           texture_id := s.next_handle + 3,
           next_handle := s.next_handle + 3,
           texture_contents := zerosMat 512 512 }

/-- `VideoPlayerApp::InitializeCardboard`: unconditionally creates a new head
tracker, a new lens distortion and a new distortion renderer, overwriting
whatever the three pointer fields held before (the old values are not
destroyed here). -/
def initializeCardboard (s : AppState) : AppState × List GlEvent :=
  ({ s with head_tracker := some (s.next_handle + 1),
            lens_distortion := some (s.next_handle + 2),
            distortion_renderer := some (s.next_handle + 3),
            next_handle := s.next_handle + 3 },
   [GlEvent.createHeadTracker (s.next_handle + 1),
    GlEvent.createLensDistortion (s.next_handle + 2),
    GlEvent.createDistortionRenderer (s.next_handle + 3)])

/-- `VideoPlayerApp::SetScreenParams`: store the new dimensions, destroy the
lens distortion and the distortion renderer when present, then run
`InitializeCardboard`. -/
def setScreenParams (s : AppState) (w h : ℤ) : AppState × List GlEvent :=
  ((initializeCardboard { s with screen_width := w, screen_height := h }).1,
   ((match s.lens_distortion with
     | some hd => [GlEvent.destroyLensDistortion hd]
     | none => []) ++
    (match s.distortion_renderer with
     | some hd => [GlEvent.destroyDistortionRenderer hd]
     | none => [])) ++
   (initializeCardboard { s with screen_width := w, screen_height := h }).2)

/-!
Predicates used by the theorems. -/

/-- A rational channel value in the normalized range [0, 1]. -/
def In01 (v : ℚ) : Prop := 0 ≤ v ∧ v ≤ 1

/-- All three channels of a float pixel lie in [0, 1]. -/
def PixIn01 (p : Pix ℚ) : Prop := In01 p.b ∧ In01 p.g ∧ In01 p.r

/-- Every pixel of a float image lies in [0, 1] on every channel. -/
def InRange01 (m : Mat (Pix ℚ)) : Prop := ∀ row ∈ m.data, ∀ p ∈ row, PixIn01 p

/-- Every value of a single-channel float image lies in [0, 1]. -/
def GrayIn01 (m : Mat ℚ) : Prop := ∀ row ∈ m.data, ∀ v ∈ row, In01 v

/-- A valid convolution kernel: nonnegative weights summing to 1.  The
Gaussian kernel OpenCV builds for `GaussianBlur(..., Size(15,15), 0)`
satisfies this. -/
def KernelOK (k : List ℚ) : Prop := (∀ w ∈ k, 0 ≤ w) ∧ k.sum = 1

/-- Every channel of a byte image is a valid 8-bit value. -/
def ByteMatLe255 (m : Mat (Pix ℕ)) : Prop :=
  ∀ row ∈ m.data, ∀ p ∈ row, p.b ≤ 255 ∧ p.g ≤ 255 ∧ p.r ≤ 255

instance (v : ℚ) : Decidable (In01 v) := by unfold In01; infer_instance

instance (p : Pix ℚ) : Decidable (PixIn01 p) := by unfold PixIn01; infer_instance

instance (m : Mat (Pix ℚ)) : Decidable (InRange01 m) := by
  unfold InRange01; infer_instance

instance (k : List ℚ) : Decidable (KernelOK k) := by unfold KernelOK; infer_instance

instance (m : Mat (Pix ℕ)) : Decidable (ByteMatLe255 m) := by
  unfold ByteMatLe255; infer_instance

end VideoPlayerApp

namespace VideoPlayerApp

/-!
Helper lemmas. -/

theorem list_getD_prop {α : Type} {P : α → Prop} :
    ∀ (l : List α) (n : ℕ) (d : α), (∀ v ∈ l, P v) → P d → P (l.getD n d)
  | [], n, d, _, hd => by simpa [List.getD] using hd
  | a :: l, 0, d, h, _ => by simpa using h a (by simp)
  | a :: l, n + 1, d, h, hd => by
      simpa using list_getD_prop l n d (fun v hv => h v (by simp [hv])) hd

theorem clamp01_in01 (q : ℚ) : In01 (clamp01 q) := by
  refine ⟨le_max_left 0 _, max_le (by norm_num) (min_le_left 1 q)⟩

theorem wsum_bounds {k : List ℚ} (hk : ∀ w ∈ k, 0 ≤ w) :
    ∀ {f : ℕ → ℚ}, (∀ i, In01 (f i)) → 0 ≤ wsum k f ∧ wsum k f ≤ k.sum := by
  induction k with
  | nil => intro f _; simp [wsum]
  | cons w ws ih =>
      intro f hf
      have hw : 0 ≤ w := hk w (by simp)
      have hks : ∀ v ∈ ws, 0 ≤ v := fun v hv => hk v (by simp [hv])
      have hrec := @ih hks (fun i => f (i + 1)) (fun i => hf (i + 1))
      have h0 := (hf 0).1
      have h1 := (hf 0).2
      constructor
      · have : 0 ≤ w * f 0 := mul_nonneg hw h0
        simpa [wsum] using add_nonneg this hrec.1
      · have hcut : w * f 0 ≤ w := by nlinarith
        simp only [wsum, List.sum_cons]
        linarith [hrec.2]

theorem convex01_right {a v t : ℚ} (ha : In01 a) (hv : In01 v) (h0 : 0 ≤ t)
    (h1 : t ≤ 1) : In01 (a * (1 - t) + v * t) := by
  obtain ⟨ha0, ha1⟩ := ha
  obtain ⟨hv0, hv1⟩ := hv
  constructor
  · nlinarith
  · nlinarith

theorem convex01_left {a v t : ℚ} (ha : In01 a) (hv : In01 v) (h0 : 0 ≤ t)
    (h1 : t ≤ 1) : In01 ((1 - t) * a + t * v) := by
  have := convex01_right ha hv h0 h1
  have heq : (1 - t) * a + t * v = a * (1 - t) + v * t := by ring
  rw [heq]; exact this

theorem inRange01_mapMat {f : Pix ℚ → Pix ℚ} (h : ∀ p, PixIn01 (f p))
    (m : Mat (Pix ℚ)) : InRange01 (mapMat f m) := by
  intro row hrow p hp
  simp only [mapMat, List.mem_map] at hrow
  obtain ⟨row0, _, rfl⟩ := hrow
  simp only [List.mem_map] at hp
  obtain ⟨q, _, rfl⟩ := hp
  exact h q

theorem contrastStage_range (c : ℚ) {m : Mat (Pix ℚ)} (hm : InRange01 m) :
    InRange01 (contrastStage c m) := by
  unfold contrastStage
  split
  · exact hm
  · refine inRange01_mapMat (fun p => ?_) m
    exact ⟨clamp01_in01 _, clamp01_in01 _, clamp01_in01 _⟩

theorem tintStage_range (rt gt : ℚ) {m : Mat (Pix ℚ)} (hm : InRange01 m) :
    InRange01 (tintStage rt gt m) := by
  unfold tintStage
  split
  · exact hm
  · refine inRange01_mapMat (fun p => ?_) m
    exact ⟨clamp01_in01 _, clamp01_in01 _, clamp01_in01 _⟩

theorem fetch_pix_in01 {m : Mat (Pix ℚ)} (hm : InRange01 m) (y x : ℕ) :
    PixIn01 ((m.data.getD y []).getD x ⟨0, 0, 0⟩) := by
  have hrow : ∀ p ∈ m.data.getD y [], PixIn01 p :=
    list_getD_prop (P := fun row => ∀ p ∈ row, PixIn01 p) m.data y []
      hm (by simp)
  exact list_getD_prop _ x _ hrow
    ⟨⟨le_refl 0, by norm_num⟩, ⟨le_refl 0, by norm_num⟩, ⟨le_refl 0, by norm_num⟩⟩

theorem fetch_gray_in01 {m : Mat ℚ} (hm : GrayIn01 m) (y x : ℕ) :
    In01 ((m.data.getD y []).getD x 0) := by
  have hrow : ∀ v ∈ m.data.getD y [], In01 v :=
    list_getD_prop (P := fun row => ∀ v ∈ row, In01 v) m.data y []
      hm (by simp)
  exact list_getD_prop _ x _ hrow ⟨le_refl 0, by norm_num⟩

theorem bgr2gray_range {m : Mat (Pix ℚ)} (hm : InRange01 m) :
    GrayIn01 (mapMat bgr2gray m) := by
  intro row hrow v hv
  simp only [mapMat, List.mem_map] at hrow
  obtain ⟨row0, hrow0, rfl⟩ := hrow
  simp only [List.mem_map] at hv
  obtain ⟨p, hp, rfl⟩ := hv
  obtain ⟨⟨hb0, hb1⟩, ⟨hg0, hg1⟩, ⟨hr0, hr1⟩⟩ := hm row0 hrow0 p hp
  unfold bgr2gray
  constructor
  · nlinarith
  · nlinarith

theorem blurH_range {k : List ℚ} (hk : KernelOK k) {m : Mat ℚ}
    (hm : GrayIn01 m) : GrayIn01 (blurH k m) := by
  intro row hrow v hv
  simp only [blurH, List.mem_map, List.mem_range] at hrow
  obtain ⟨y, _, rfl⟩ := hrow
  simp only [List.mem_map, List.mem_range] at hv
  obtain ⟨x, _, rfl⟩ := hv
  have hb := wsum_bounds hk.1
    (f := fun i => (m.data.getD y []).getD (reflect101 m.cols ((x : ℤ) + (i : ℤ) - 7)) 0)
    (fun i => fetch_gray_in01 hm y _)
  exact ⟨hb.1, by rw [← hk.2]; exact hb.2⟩

theorem blurV_range {k : List ℚ} (hk : KernelOK k) {m : Mat ℚ}
    (hm : GrayIn01 m) : GrayIn01 (blurV k m) := by
  intro row hrow v hv
  simp only [blurV, List.mem_map, List.mem_range] at hrow
  obtain ⟨y, _, rfl⟩ := hrow
  simp only [List.mem_map, List.mem_range] at hv
  obtain ⟨x, _, rfl⟩ := hv
  have hb := wsum_bounds hk.1
    (f := fun i => (m.data.getD (reflect101 m.rows ((y : ℤ) + (i : ℤ) - 7)) []).getD x 0)
    (fun i => fetch_gray_in01 hm _ x)
  exact ⟨hb.1, by rw [← hk.2]; exact hb.2⟩

theorem fogStage_range {f : ℚ} {k : List ℚ} (hk : KernelOK k) (hf1 : f ≤ 1)
    {m : Mat (Pix ℚ)} (hm : InRange01 m) : InRange01 (fogStage f k m) := by
  unfold fogStage
  split
  · exact hm
  · rename_i hfpos
    have hf0 : 0 ≤ f := le_of_lt (lt_of_not_ge hfpos)
    intro row hrow p hp
    simp only [List.mem_map, List.mem_range] at hrow
    obtain ⟨y, _, rfl⟩ := hrow
    simp only [List.mem_map, List.mem_range] at hp
    obtain ⟨x, _, rfl⟩ := hp
    have hpix := fetch_pix_in01 hm y x
    have hgray : GrayIn01 (gaussianBlur15 k (mapMat bgr2gray m)) :=
      blurV_range hk (blurH_range hk (bgr2gray_range hm))
    have hv := fetch_gray_in01 hgray y x
    exact ⟨convex01_right hpix.1 hv hf0 hf1,
           convex01_right hpix.2.1 hv hf0 hf1,
           convex01_right hpix.2.2 hv hf0 hf1⟩

theorem resizeRow_range {row : List (Pix ℚ)} (hrow : ∀ p ∈ row, PixIn01 p)
    (srcW dstW : ℕ) : ∀ p ∈ resizeRow row srcW dstW, PixIn01 p := by
  intro p hp
  simp only [resizeRow, List.mem_map, List.mem_range] at hp
  obtain ⟨x, _, rfl⟩ := hp
  set sx : ℚ := ((x : ℚ) + 1 / 2) * srcW / dstW - 1 / 2 with hsx
  have ht0 : 0 ≤ sx - (⌊sx⌋ : ℚ) := by
    have := Int.floor_le sx
    linarith
  have ht1 : sx - (⌊sx⌋ : ℚ) ≤ 1 := by
    have := Int.lt_floor_add_one sx
    linarith
  have h0 := list_getD_prop row (clampIdx srcW ⌊sx⌋) (⟨0, 0, 0⟩ : Pix ℚ) hrow
    ⟨⟨le_refl 0, by norm_num⟩, ⟨le_refl 0, by norm_num⟩, ⟨le_refl 0, by norm_num⟩⟩
  have h1 := list_getD_prop row (clampIdx srcW (⌊sx⌋ + 1)) (⟨0, 0, 0⟩ : Pix ℚ) hrow
    ⟨⟨le_refl 0, by norm_num⟩, ⟨le_refl 0, by norm_num⟩, ⟨le_refl 0, by norm_num⟩⟩
  exact ⟨convex01_left h0.1 h1.1 ht0 ht1,
         convex01_left h0.2.1 h1.2.1 ht0 ht1,
         convex01_left h0.2.2 h1.2.2 ht0 ht1⟩

theorem resizeHor_range {m : Mat (Pix ℚ)} (hm : InRange01 m) {dstW : ℤ}
    {r : Mat (Pix ℚ)} (h : resizeHor m dstW = some r) : InRange01 r := by
  unfold resizeHor at h
  split at h
  · exact absurd h (by simp)
  · cases h
    intro row hrow p hp
    simp only [List.mem_map] at hrow
    obtain ⟨row0, hrow0, rfl⟩ := hrow
    exact resizeRow_range (hm row0 hrow0) _ _ p hp

theorem cropRect_range {m : Mat (Pix ℚ)} (hm : InRange01 m) {x w h : ℕ}
    {r : Mat (Pix ℚ)} (hc : cropRect m x w h = some r) : InRange01 r := by
  unfold cropRect at hc
  split at hc
  · cases hc
    intro row hrow p hp
    simp only [List.mem_map] at hrow
    obtain ⟨row0, hrow0, rfl⟩ := hrow
    have hmem : row0 ∈ m.data := List.mem_of_mem_take hrow0
    have hpmem : p ∈ row0 :=
      List.mem_of_mem_drop (List.mem_of_mem_take hp)
    exact hm row0 hmem p hpmem
  · exact absurd hc (by simp)

theorem stretchStage_range {d : ℚ} {m : Mat (Pix ℚ)} (hm : InRange01 m)
    {r : Mat (Pix ℚ)} (h : stretchStage d m = some r) : InRange01 r := by
  unfold stretchStage at h
  split at h
  · cases h; exact hm
  · split at h
    · cases h; exact hm
    · rw [Option.bind_eq_some] at h
      obtain ⟨st, hst, hcrop⟩ := h
      have hstr : InRange01 st := resizeHor_range hm hst
      split at hcrop
      · exact cropRect_range hstr hcrop
      · exact cropRect_range hstr hcrop

theorem toFloatMat_range {m : Mat (Pix ℕ)} (hm : ByteMatLe255 m) :
    InRange01 (toFloatMat m) := by
  intro row hrow p hp
  simp only [toFloatMat, mapMat, List.mem_map] at hrow
  obtain ⟨row0, hrow0, rfl⟩ := hrow
  simp only [List.mem_map] at hp
  obtain ⟨q, hq, rfl⟩ := hp
  obtain ⟨hb, hg, hr⟩ := hm row0 hrow0 q hq
  have hin : ∀ n : ℕ, n ≤ 255 → In01 ((n : ℚ) / 255) := by
    intro n hn
    constructor
    · positivity
    · rw [div_le_one (by norm_num)]
      exact_mod_cast hn
  exact ⟨hin q.b hb, hin q.g hg, hin q.r hr⟩

theorem quantByte_le255 (q : ℚ) : quantByte q ≤ 255 := by
  unfold quantByte
  omega

theorem quantMat_le255 (m : Mat (Pix ℚ)) : ByteMatLe255 (quantMat m) := by
  intro row hrow p hp
  simp only [quantMat, mapMat, List.mem_map] at hrow
  obtain ⟨row0, _, rfl⟩ := hrow
  simp only [List.mem_map] at hp
  obtain ⟨q, _, rfl⟩ := hp
  exact ⟨quantByte_le255 _, quantByte_le255 _, quantByte_le255 _⟩

theorem quantByte_div255 {n : ℕ} (hn : n ≤ 255) : quantByte ((n : ℚ) / 255) = n := by
  unfold quantByte
  rw [div_mul_cancel₀ _ (by norm_num : (255 : ℚ) ≠ 0), round_natCast,
    max_eq_right (by positivity), min_eq_right (by exact_mod_cast hn)]
  simp

theorem quant_toFloat_id {m : Mat (Pix ℕ)} (hm : ByteMatLe255 m) :
    quantMat (toFloatMat m) = m := by
  obtain ⟨rows, cols, data⟩ := m
  simp only [quantMat, toFloatMat, mapMat, List.map_map, Mat.mk.injEq, true_and]
  have hdata : ∀ row ∈ data, ∀ p ∈ row, p.b ≤ 255 ∧ p.g ≤ 255 ∧ p.r ≤ 255 := hm
  calc data.map (List.map (Pix.cmap quantByte) ∘ List.map (Pix.cmap fun n : ℕ => (n : ℚ) / 255))
      = data.map id := by
        refine List.map_congr_left fun row hrow => ?_
        simp only [Function.comp_apply, List.map_map, id_eq]
        have hrowid :
            row.map ((Pix.cmap quantByte) ∘ (Pix.cmap fun n : ℕ => (n : ℚ) / 255)) =
            row.map id := by
          refine List.map_congr_left fun p hp => ?_
          obtain ⟨hb, hg, hr⟩ := hdata row hrow p hp
          obtain ⟨pb, pg, pr⟩ := p
          simp only [Function.comp_apply, Pix.cmap, Pix.mk.injEq, id_eq]
          exact ⟨quantByte_div255 hb, quantByte_div255 hg, quantByte_div255 hr⟩
        rw [hrowid, List.map_id]
    _ = data := List.map_id data

/-- C1: for every input half and every effect settings value within
documented ranges (the fog intensity, used as a blend weight, lies in
[0, 1]; the Gaussian kernel is nonnegative and sums to 1), every channel of
every pixel the effect pipeline of `ApplyEffects` produces lies in [0, 1] in
normalized float form, and in [0, 255] after re-quantization to integer
form.  The conclusion ranges over produced outputs: settings whose
directional stretch raises a `cv::Exception` produce none. -/
theorem C1_effects_output_clamped (s : EyeSettings) (k : List ℚ)
    (m : Mat (Pix ℕ)) (hk : KernelOK k) (hf0 : 0 ≤ s.fog_intensity)
    (hf1 : s.fog_intensity ≤ 1) (hm : ByteMatLe255 m) :
    (∀ r, floatPipeline s k (toFloatMat m) = some r → InRange01 r) ∧
    (∀ r, applyEffects s k m = some r → ByteMatLe255 r) := by
  constructor
  · intro r hr
    unfold floatPipeline at hr
    exact stretchStage_range
      (fogStage_range hk hf1
        (tintStage_range _ _ (contrastStage_range _ (toFloatMat_range hm)))) hr
  · intro r hr
    unfold applyEffects at hr
    split at hr
    · simp only [Option.some.injEq] at hr
      subst hr
      intro row hrow
      exact absurd hrow (by simp)
    · rw [Option.map_eq_some'] at hr
      obtain ⟨q, _, rfl⟩ := hr
      exact quantMat_le255 q

/-- C1 witness: a concrete pixel, kernel and in-range settings. -/
theorem C1_effects_output_clamped_witness :
    (KernelOK [(1 : ℚ)] ∧
     (0 : ℚ) ≤ (1 : ℚ) / 2 ∧ (1 : ℚ) / 2 ≤ 1 ∧
     ByteMatLe255 ⟨1, 1, [[⟨100, 150, 250⟩]]⟩) ∧
    ((∀ r, floatPipeline ⟨true, 2, 1, 0, 1 / 2, 0⟩ [(1 : ℚ)]
        (toFloatMat ⟨1, 1, [[⟨100, 150, 250⟩]]⟩) = some r → InRange01 r) ∧
     (∀ r, applyEffects ⟨true, 2, 1, 0, 1 / 2, 0⟩ [(1 : ℚ)]
        ⟨1, 1, [[⟨100, 150, 250⟩]]⟩ = some r → ByteMatLe255 r)) :=
  ⟨⟨by norm_num [KernelOK], by norm_num, by norm_num, by decide⟩,
    C1_effects_output_clamped ⟨true, 2, 1, 0, 1 / 2, 0⟩ _ _
      (by norm_num [KernelOK]) (by norm_num) (by norm_num) (by decide)⟩

/-- C3: with the default settings (enabled, contrast 1, tints 0, fog 0,
directional 0) every stage of `ApplyEffects` is skipped and the
float-normalize / re-quantize round trip restores every byte exactly, so
the output equals the input. -/
theorem C3_default_settings_identity (k : List ℚ) (m : Mat (Pix ℕ))
    (hm : ByteMatLe255 m) (hr : 0 < m.rows) (hc : 0 < m.cols) :
    applyEffects ⟨true, 1, 0, 0, 0, 0⟩ k m = some m := by
  unfold applyEffects
  rw [if_neg (by omega)]
  unfold floatPipeline contrastStage tintStage fogStage stretchStage
  norm_num
  exact quant_toFloat_id hm

/-- C3 witness at a concrete image. -/
theorem C3_default_settings_identity_witness :
    (ByteMatLe255 ⟨1, 2, [[⟨7, 8, 9⟩, ⟨255, 0, 128⟩]]⟩ ∧
     0 < (1 : ℕ) ∧ 0 < (2 : ℕ)) ∧
    applyEffects ⟨true, 1, 0, 0, 0, 0⟩ [(1 : ℚ)]
      ⟨1, 2, [[⟨7, 8, 9⟩, ⟨255, 0, 128⟩]]⟩ =
      some ⟨1, 2, [[⟨7, 8, 9⟩, ⟨255, 0, 128⟩]]⟩ :=
  ⟨⟨by decide, by norm_num, by norm_num⟩,
    C3_default_settings_identity _ _ (by decide) (by norm_num) (by norm_num)⟩

/-- C5: the spec scenario.  A 2 by 1 side-by-side input with left pixel
(100,100,100) and right pixel (50,50,50), left eye enabled with contrast 2
and all other left effects at identity, right eye disabled:
`ProcessVideoFrame` yields left pixel (200,200,200) and right pixel
unchanged (50,50,50). -/
theorem C5_contrast_scenario :
    processVideoFrame
      ⟨true, 2, 0, 0, 0, 0, false, 1, 0, 0, 0, 0⟩ [(1 : ℚ)]
      ⟨1, 2, [[⟨100, 100, 100⟩, ⟨50, 50, 50⟩]]⟩ =
      some ⟨1, 2, [[⟨200, 200, 200⟩, ⟨50, 50, 50⟩]]⟩ := by
  have hL : applyEffects ⟨true, 2, 0, 0, 0, 0⟩ [(1 : ℚ)]
      ⟨1, 1, [[⟨100, 100, 100⟩]]⟩ = some ⟨1, 1, [[⟨200, 200, 200⟩]]⟩ := by
    norm_num [applyEffects, floatPipeline, contrastStage, tintStage, fogStage,
      stretchStage, toFloatMat, quantMat, mapMat, Pix.cmap, clamp01, quantByte,
      round_eq]
    decide
  norm_num [processVideoFrame, cropRect, copyToRect, writeRows, writeRow,
    zerosMat, leftSettings, rightSettings, hL]

/-!
Shape lemmas: the stages preserve rectangular well-formedness and the
header dimensions. -/

theorem mapMat_WF {α β : Type} {f : α → β} {m : Mat α} (h : m.WF) :
    (mapMat f m).WF := by
  obtain ⟨hl, hc⟩ := h
  constructor
  · simpa [mapMat] using hl
  · intro row hrow
    simp only [mapMat, List.mem_map] at hrow
    obtain ⟨row0, hrow0, rfl⟩ := hrow
    simpa using hc row0 hrow0

theorem contrastStage_WF {c : ℚ} {m : Mat (Pix ℚ)} (h : m.WF) :
    (contrastStage c m).WF := by
  unfold contrastStage
  split
  · exact h
  · exact mapMat_WF h

theorem tintStage_WF {rt gt : ℚ} {m : Mat (Pix ℚ)} (h : m.WF) :
    (tintStage rt gt m).WF := by
  unfold tintStage
  split
  · exact h
  · exact mapMat_WF h

theorem fogStage_WF {f : ℚ} {k : List ℚ} {m : Mat (Pix ℚ)} (h : m.WF) :
    (fogStage f k m).WF := by
  unfold fogStage
  split
  · exact h
  · constructor
    · simp
    · intro row hrow
      simp only [List.mem_map, List.mem_range] at hrow
      obtain ⟨y, _, rfl⟩ := hrow
      simp

theorem contrastStage_dims (c : ℚ) (m : Mat (Pix ℚ)) :
    (contrastStage c m).rows = m.rows ∧ (contrastStage c m).cols = m.cols := by
  unfold contrastStage
  split <;> simp [mapMat]

theorem tintStage_dims (rt gt : ℚ) (m : Mat (Pix ℚ)) :
    (tintStage rt gt m).rows = m.rows ∧ (tintStage rt gt m).cols = m.cols := by
  unfold tintStage
  split <;> simp [mapMat]

theorem fogStage_dims (f : ℚ) (k : List ℚ) (m : Mat (Pix ℚ)) :
    (fogStage f k m).rows = m.rows ∧ (fogStage f k m).cols = m.cols := by
  unfold fogStage
  split <;> simp

theorem cropRect_WF {α : Type} {m : Mat α} (h : m.WF) {x w hh : ℕ}
    {r : Mat α} (hc : cropRect m x w hh = some r) : r.WF := by
  obtain ⟨hl, hcols⟩ := h
  unfold cropRect at hc
  split at hc
  · rename_i hcond
    obtain ⟨hxw, hhr⟩ := hcond
    cases hc
    constructor
    · simp only [List.length_map, List.length_take]
      omega
    · intro row hrow
      simp only [List.mem_map] at hrow
      obtain ⟨row0, hrow0, rfl⟩ := hrow
      have hr0 : row0.length = m.cols := hcols row0 (List.mem_of_mem_take hrow0)
      simp only [List.length_take, List.length_drop, hr0]
      omega
  · exact absurd hc (by simp)

theorem cropRect_fields {α : Type} {m : Mat α} {x w hh : ℕ} {r : Mat α}
    (hc : cropRect m x w hh = some r) : r.rows = hh ∧ r.cols = w := by
  unfold cropRect at hc
  split at hc
  · cases hc; exact ⟨rfl, rfl⟩
  · exact absurd hc (by simp)

theorem resizeHor_WF {m : Mat (Pix ℚ)} (h : m.WF) {dstW : ℤ} {r : Mat (Pix ℚ)}
    (hr : resizeHor m dstW = some r) : r.WF := by
  unfold resizeHor at hr
  split at hr
  · exact absurd hr (by simp)
  · cases hr
    refine ⟨by simp [h.1], ?_⟩
    intro row hrow
    simp only [List.mem_map] at hrow
    obtain ⟨row0, _, rfl⟩ := hrow
    show (resizeRow row0 m.cols dstW.toNat).length = dstW.toNat
    rw [resizeRow, List.length_map, List.length_range]

theorem stretchStage_shape {d : ℚ} {m : Mat (Pix ℚ)} (h : m.WF)
    {r : Mat (Pix ℚ)} (hs : stretchStage d m = some r) :
    r.WF ∧ r.rows = m.rows ∧ r.cols = m.cols := by
  unfold stretchStage at hs
  split at hs
  · cases hs; exact ⟨h, rfl, rfl⟩
  · split at hs
    · cases hs; exact ⟨h, rfl, rfl⟩
    · rw [Option.bind_eq_some] at hs
      obtain ⟨st, hst, hcrop⟩ := hs
      have hstWF := resizeHor_WF h hst
      have key : ∀ x : ℕ, cropRect st x m.cols m.rows = some r →
          r.WF ∧ r.rows = m.rows ∧ r.cols = m.cols := by
        intro x hc
        obtain ⟨h1, h2⟩ := cropRect_fields hc
        exact ⟨cropRect_WF hstWF hc, h1, h2⟩
      split at hcrop
      · exact key 0 hcrop
      · exact key _ hcrop

theorem floatPipeline_shape {s : EyeSettings} {k : List ℚ} {m : Mat (Pix ℚ)}
    (h : m.WF) {r : Mat (Pix ℚ)} (hp : floatPipeline s k m = some r) :
    r.WF ∧ r.rows = m.rows ∧ r.cols = m.cols := by
  unfold floatPipeline at hp
  have h1 := contrastStage_WF (c := s.contrast) h
  have h2 : (tintStage s.red_tint s.green_tint (contrastStage s.contrast m)).WF :=
    tintStage_WF h1
  have h3 := fogStage_WF (f := s.fog_intensity) (k := k) h2
  have hs := stretchStage_shape h3 hp
  obtain ⟨hd1, hd2⟩ := contrastStage_dims s.contrast m
  obtain ⟨hd3, hd4⟩ := tintStage_dims s.red_tint s.green_tint (contrastStage s.contrast m)
  obtain ⟨hd5, hd6⟩ := fogStage_dims s.fog_intensity k
    (tintStage s.red_tint s.green_tint (contrastStage s.contrast m))
  refine ⟨hs.1, ?_, ?_⟩
  · rw [hs.2.1, hd5, hd3, hd1]
  · rw [hs.2.2, hd6, hd4, hd2]

theorem applyEffects_shape {s : EyeSettings} {k : List ℚ} {m : Mat (Pix ℕ)}
    (h : m.WF) {r : Mat (Pix ℕ)} (ha : applyEffects s k m = some r) :
    r.WF ∧ (r.rows = m.rows ∧ r.cols = m.cols ∨ r = ⟨0, 0, []⟩) := by
  unfold applyEffects at ha
  split at ha
  · simp only [Option.some.injEq] at ha
    subst ha
    exact ⟨⟨rfl, by simp⟩, Or.inr rfl⟩
  · rw [Option.map_eq_some'] at ha
    obtain ⟨q, hq, rfl⟩ := ha
    have htf : (toFloatMat m).WF := mapMat_WF h
    have hfp := floatPipeline_shape htf hq
    exact ⟨mapMat_WF hfp.1, Or.inl ⟨hfp.2.1, hfp.2.2⟩⟩

/-!
Lemmas about `writeRows`, the in-place ROI write of `copyTo`. -/

theorem writeRows_length {α : Type} :
    ∀ (dst src : List (List α)) (x : ℕ), (writeRows dst src x).length = dst.length
  | dst, [], _ => by cases dst <;> rfl
  | [], _ :: _, _ => rfl
  | drow :: ds, srow :: ss, x => by
      simp only [writeRows, List.length_cons, writeRows_length ds ss x]

theorem writeRow_length {α : Type} {dst src : List α} {x : ℕ}
    (h : x + src.length ≤ dst.length) : (writeRow dst src x).length = dst.length := by
  simp only [writeRow, List.length_append, List.length_take, List.length_drop]
  omega

theorem writeRows_rowlen {α : Type} {c : ℕ} :
    ∀ (dst src : List (List α)) (x : ℕ),
      (∀ row ∈ dst, row.length = c) → (∀ srow ∈ src, x + srow.length ≤ c) →
      ∀ row ∈ writeRows dst src x, row.length = c
  | dst, [], _, hd, _ => by cases dst <;> exact hd
  | [], _ :: _, _, _, _ => by intro row hrow; exact absurd hrow (by simp [writeRows])
  | drow :: ds, srow :: ss, x, hd, hs => by
      intro row hrow
      simp only [writeRows, List.mem_cons] at hrow
      rcases hrow with rfl | hrow
      · have h1 : drow.length = c := hd drow (by simp)
        have h2 : x + srow.length ≤ c := hs srow (by simp)
        rw [writeRow_length (by omega)]
        exact h1
      · exact writeRows_rowlen ds ss x (fun r hr => hd r (by simp [hr]))
          (fun r hr => hs r (by simp [hr])) row hrow

theorem writeRow_extract {α : Type} {row srow : List α} {x w : ℕ}
    (hx : x ≤ row.length) (hw : srow.length = w) :
    ((writeRow row srow x).drop x).take w = srow := by
  unfold writeRow
  rw [List.append_assoc]
  set A := row.take x with hA
  have hlen : A.length = x := by
    simp only [hA, List.length_take]
    omega
  rw [← hlen, List.drop_left, ← hw, List.take_left]

theorem writeRow_prefix {α : Type} {row srow : List α} {x w : ℕ} (hwx : w ≤ x)
    (hx : x ≤ row.length) : ((writeRow row srow x).drop 0).take w = (row.drop 0).take w := by
  unfold writeRow
  rw [List.drop_zero, List.drop_zero, List.append_assoc]
  have hlen : (row.take x).length = x := by
    simp only [List.length_take]
    omega
  rw [List.take_append_of_le_length (by rw [hlen]; exact hwx), List.take_take,
    min_eq_left hwx]

theorem writeRows_extract {α : Type} :
    ∀ (dst src : List (List α)) (x w : ℕ),
      src.length = dst.length → (∀ row ∈ dst, x + w ≤ row.length) →
      (∀ srow ∈ src, srow.length = w) →
      (writeRows dst src x).map (fun row => (row.drop x).take w) = src
  | dst, [], _, _, hlen, _, _ => by
      have hd : dst = [] := List.eq_nil_of_length_eq_zero (by simp at hlen; omega)
      subst hd; rfl
  | [], srow :: ss, _, _, hlen, _, _ => by simp at hlen
  | drow :: ds, srow :: ss, x, w, hlen, hrow, hsrow => by
      simp only [writeRows, List.map_cons, List.cons.injEq]
      constructor
      · exact writeRow_extract (by have := hrow drow (by simp); omega)
          (hsrow srow (by simp))
      · exact writeRows_extract ds ss x w (by simpa using hlen)
          (fun r hr => hrow r (by simp [hr])) (fun r hr => hsrow r (by simp [hr]))

theorem writeRows_prefix {α : Type} :
    ∀ (dst src : List (List α)) (x w : ℕ), w ≤ x → (∀ row ∈ dst, x ≤ row.length) →
      (writeRows dst src x).map (fun row => (row.drop 0).take w) =
        dst.map (fun row => (row.drop 0).take w)
  | dst, [], _, _, _, _ => by cases dst <;> rfl
  | [], _ :: _, _, _, _, _ => rfl
  | drow :: ds, srow :: ss, x, w, hwx, hrow => by
      simp only [writeRows, List.map_cons, List.cons.injEq]
      constructor
      · exact writeRow_prefix hwx (hrow drow (by simp))
      · exact writeRows_prefix ds ss x w hwx (fun r hr => hrow r (by simp [hr]))

theorem copyToRect_fields {α : Type} (dst src : Mat α) (x w h : ℕ) :
    (copyToRect dst src x w h).rows = dst.rows ∧
    (copyToRect dst src x w h).cols = dst.cols := by
  unfold copyToRect
  split <;> simp

end VideoPlayerApp
namespace VideoPlayerApp

theorem processedHalf_facts {b : Bool} {s : EyeSettings} {k : List ℚ}
    {he : Mat (Pix ℕ)} (hhewf : he.WF) {P : Mat (Pix ℕ)}
    (h : (if b then applyEffects s k he else some he) = some P) :
    P.WF ∧ (P.rows = he.rows ∧ P.cols = he.cols ∨ P = ⟨0, 0, []⟩) := by
  split at h
  · exact applyEffects_shape hhewf h
  · simp only [Option.some.injEq] at h
    subst h
    exact ⟨hhewf, Or.inl ⟨rfl, rfl⟩⟩

theorem copyToRect_data_facts {α : Type} {dst src : Mat α} {x w h : ℕ}
    (hdlen : dst.data.length = dst.rows)
    (hdrow : ∀ row ∈ dst.data, row.length = dst.cols)
    (hsrow : ∀ srow ∈ src.data, x + srow.length ≤ dst.cols) :
    (copyToRect dst src x w h).data.length = dst.rows ∧
    ∀ row ∈ (copyToRect dst src x w h).data, row.length = dst.cols := by
  unfold copyToRect
  split
  · constructor
    · show (writeRows dst.data src.data x).length = dst.rows
      rw [writeRows_length]
      exact hdlen
    · exact writeRows_rowlen dst.data src.data x hdrow hsrow
  · exact ⟨hdlen, hdrow⟩

theorem crop_of_copy_at {out1 PR : Mat (Pix ℕ)} {hw r c : ℕ}
    (h1 : out1.rows = r) (h2 : out1.cols = c) (hlen : out1.data.length = r)
    (hrowlen : ∀ row ∈ out1.data, row.length = c) (hwc : hw + hw ≤ c)
    (hPRr : PR.rows = r) (hPRc : PR.cols = hw)
    (hPRlen : PR.data.length = r) (hPRrow : ∀ srow ∈ PR.data, srow.length = hw) :
    cropRect (copyToRect out1 PR hw hw r) hw hw r = some ⟨r, hw, PR.data⟩ := by
  unfold copyToRect
  rw [if_pos ⟨hPRr, hPRc⟩]
  unfold cropRect
  rw [if_pos ⟨by simp [h2]; omega, by simp [h1]⟩]
  have hwl : (writeRows out1.data PR.data hw).length = r := by
    rw [writeRows_length]; exact hlen
  simp only [Option.some.injEq, Mat.mk.injEq, true_and]
  rw [List.take_of_length_le (le_of_eq hwl)]
  exact writeRows_extract out1.data PR.data hw hw (by omega)
    (fun row hrow => by rw [hrowlen row hrow]; omega) hPRrow

theorem crop_prefix_of_copy {out1 PR : Mat (Pix ℕ)} {hw r c : ℕ}
    (h1 : out1.rows = r) (h2 : out1.cols = c) (hlen : out1.data.length = r)
    (hrowlen : ∀ row ∈ out1.data, row.length = c) (hwc : hw + hw ≤ c) :
    cropRect (copyToRect out1 PR hw hw r) 0 hw r =
      some ⟨r, hw, out1.data.map fun row => (row.drop 0).take hw⟩ := by
  unfold copyToRect
  split
  · unfold cropRect
    rw [if_pos ⟨by simp [h2]; omega, by simp [h1]⟩]
    have hwl : (writeRows out1.data PR.data hw).length = r := by
      rw [writeRows_length]; exact hlen
    simp only [Option.some.injEq, Mat.mk.injEq, true_and]
    rw [List.take_of_length_le (le_of_eq hwl)]
    exact writeRows_prefix out1.data PR.data hw hw (le_refl hw)
      (fun row hrow => by rw [hrowlen row hrow]; omega)
  · unfold cropRect
    rw [if_pos ⟨by omega, le_of_eq h1.symm⟩]
    simp only [Option.some.injEq, Mat.mk.injEq, true_and]
    rw [List.take_of_length_le (le_of_eq hlen)]

theorem copy_at_zero_extract {LE : Mat (Pix ℕ)} {hw r c : ℕ}
    (hLEr : LE.rows = r) (hLEc : LE.cols = hw) (hLElen : LE.data.length = r)
    (hLErow : ∀ srow ∈ LE.data, srow.length = hw) (hwc : hw ≤ c) :
    (copyToRect (zerosMat r c) LE 0 hw r).data.map
      (fun row => (row.drop 0).take hw) = LE.data := by
  unfold copyToRect
  rw [if_pos ⟨hLEr, hLEc⟩]
  show (writeRows (zerosMat r c).data LE.data 0).map _ = LE.data
  refine writeRows_extract _ _ 0 hw (by simp [zerosMat, hLElen]) ?_ hLErow
  intro row hrow
  simp only [zerosMat, List.mem_replicate] at hrow
  simp [hrow.2, hwc]

end VideoPlayerApp
namespace VideoPlayerApp

/-- C2: if an eye is disabled, that eye's half of the `ProcessVideoFrame`
output composite is bit-identical to the corresponding half of the input
frame (halves taken with the same eye rectangles the source constructs:
columns [0, cols/2) and [cols/2, 2*(cols/2))). -/
theorem C2_disabled_eye_copies_input (es : EffectSettings) (k : List ℚ)
    (input out : Mat (Pix ℕ)) (hwf : input.WF)
    (hsome : processVideoFrame es k input = some out) :
    (es.left_eye_enabled = false →
      cropRect out 0 (input.cols / 2) input.rows =
        cropRect input 0 (input.cols / 2) input.rows) ∧
    (es.right_eye_enabled = false →
      cropRect out (input.cols / 2) (input.cols / 2) input.rows =
        cropRect input (input.cols / 2) (input.cols / 2) input.rows) := by
  obtain ⟨r, c, data⟩ := input
  obtain ⟨hdlen, hdrow⟩ := hwf
  simp only at hdlen hdrow
  unfold processVideoFrame at hsome
  by_cases hempty : r = 0 ∨ c = 0
  · rw [if_pos hempty] at hsome
    exact absurd hsome (by simp)
  rw [if_neg hempty] at hsome
  push_neg at hempty
  show (_ → cropRect out 0 (c / 2) r = cropRect ⟨r, c, data⟩ 0 (c / 2) r) ∧
       (_ → cropRect out (c / 2) (c / 2) r = cropRect ⟨r, c, data⟩ (c / 2) (c / 2) r)
  have hwc : c / 2 + c / 2 ≤ c := by omega
  have hLE : cropRect (⟨r, c, data⟩ : Mat (Pix ℕ)) 0 (c / 2) r =
      some ⟨r, c / 2, (data.take r).map fun row => (row.drop 0).take (c / 2)⟩ := by
    unfold cropRect
    rw [if_pos ⟨by simp; omega, by simp⟩]
  have hRE : cropRect (⟨r, c, data⟩ : Mat (Pix ℕ)) (c / 2) (c / 2) r =
      some ⟨r, c / 2, (data.take r).map fun row => (row.drop (c / 2)).take (c / 2)⟩ := by
    unfold cropRect
    rw [if_pos ⟨by simp; omega, by simp⟩]
  rw [hLE, hRE, Option.some_bind] at hsome
  obtain ⟨PL, hPL, hsome⟩ := Option.bind_eq_some.mp hsome
  rw [Option.some_bind] at hsome
  obtain ⟨PR, hPR, hsome⟩ := Option.bind_eq_some.mp hsome
  simp only [Option.some.injEq] at hsome
  -- facts about the two cropped halves
  have hLElen : ((data.take r).map fun row => (row.drop 0).take (c / 2)).length = r := by
    simp only [List.length_map, List.length_take]
    omega
  have hRElen : ((data.take r).map fun row => (row.drop (c / 2)).take (c / 2)).length = r := by
    simp only [List.length_map, List.length_take]
    omega
  have hLErow : ∀ srow ∈ (data.take r).map fun row => (row.drop 0).take (c / 2),
      srow.length = c / 2 := by
    intro srow hsrow
    simp only [List.mem_map] at hsrow
    obtain ⟨row0, hrow0, rfl⟩ := hsrow
    have := hdrow row0 (List.mem_of_mem_take hrow0)
    simp only [List.length_take, List.length_drop, this]
    omega
  have hRErow : ∀ srow ∈ (data.take r).map fun row => (row.drop (c / 2)).take (c / 2),
      srow.length = c / 2 := by
    intro srow hsrow
    simp only [List.mem_map] at hsrow
    obtain ⟨row0, hrow0, rfl⟩ := hsrow
    have := hdrow row0 (List.mem_of_mem_take hrow0)
    simp only [List.length_take, List.length_drop, this]
    omega
  have hLEwf : (Mat.WF ⟨r, c / 2, (data.take r).map fun row => (row.drop 0).take (c / 2)⟩) :=
    ⟨hLElen, hLErow⟩
  have hREwf : (Mat.WF ⟨r, c / 2, (data.take r).map fun row => (row.drop (c / 2)).take (c / 2)⟩) :=
    ⟨hRElen, hRErow⟩
  have hPLf := processedHalf_facts hLEwf hPL
  have hPLrowle : ∀ srow ∈ PL.data, srow.length ≤ c / 2 := by
    intro srow hsrow
    rcases hPLf.2 with hd | hd
    · rw [hPLf.1.2 srow hsrow, hd.2]
    · rw [hd] at hsrow
      exact absurd hsrow (by simp)
  -- facts about out1, the zeros mat with the left half written
  have hzlen : (zerosMat r c).data.length = (zerosMat r c).rows := by
    simp [zerosMat]
  have hzrow : ∀ row ∈ (zerosMat r c).data, row.length = (zerosMat r c).cols := by
    intro row hrow
    simp only [zerosMat, List.mem_replicate] at hrow
    simp [zerosMat, hrow.2]
  have hout1 : (copyToRect (zerosMat r c) PL 0 (c / 2) r).data.length =
        (zerosMat r c).rows ∧
      ∀ row ∈ (copyToRect (zerosMat r c) PL 0 (c / 2) r).data,
        row.length = (zerosMat r c).cols :=
    copyToRect_data_facts hzlen hzrow
      (fun srow hs => by simpa [zerosMat] using le_trans (hPLrowle srow hs) (by omega))
  have hout1rows : (copyToRect (zerosMat r c) PL 0 (c / 2) r).rows = r :=
    (copyToRect_fields _ _ _ _ _).1
  have hout1cols : (copyToRect (zerosMat r c) PL 0 (c / 2) r).cols = c :=
    (copyToRect_fields _ _ _ _ _).2
  have hout1len : (copyToRect (zerosMat r c) PL 0 (c / 2) r).data.length = r := hout1.1
  have hout1row : ∀ row ∈ (copyToRect (zerosMat r c) PL 0 (c / 2) r).data,
      row.length = c := hout1.2
  subst hsome
  constructor
  · -- left eye disabled: PL is the left crop unchanged
    intro hle
    rw [hle, if_neg (by simp)] at hPL
    simp only [Option.some.injEq] at hPL
    subst hPL
    rw [crop_prefix_of_copy hout1rows hout1cols hout1len hout1row hwc, hLE]
    simp only [Option.some.injEq, Mat.mk.injEq, true_and]
    exact copy_at_zero_extract rfl rfl hLElen hLErow (by omega)
  · -- right eye disabled: PR is the right crop unchanged
    intro hre
    rw [hre, if_neg (by simp)] at hPR
    simp only [Option.some.injEq] at hPR
    subst hPR
    rw [crop_of_copy_at hout1rows hout1cols hout1len hout1row hwc rfl rfl
      hRElen hRErow, hRE]

end VideoPlayerApp

namespace VideoPlayerApp

/-- C2 witness: a concrete 2 by 1 frame with the right eye disabled and the
left eye at contrast 3. -/
theorem C2_disabled_eye_copies_input_witness :
    (Mat.WF (⟨1, 2, [[⟨10, 20, 30⟩, ⟨40, 50, 60⟩]]⟩ : Mat (Pix ℕ)) ∧
     processVideoFrame ⟨true, 3, 0, 0, 0, 0, false, 1, 0, 0, 0, 0⟩ [(1 : ℚ)]
       ⟨1, 2, [[⟨10, 20, 30⟩, ⟨40, 50, 60⟩]]⟩ =
       some ⟨1, 2, [[⟨30, 60, 90⟩, ⟨40, 50, 60⟩]]⟩) ∧
    (((⟨true, 3, 0, 0, 0, 0, false, 1, 0, 0, 0, 0⟩ : EffectSettings).left_eye_enabled = false →
      cropRect (⟨1, 2, [[⟨30, 60, 90⟩, ⟨40, 50, 60⟩]]⟩ : Mat (Pix ℕ)) 0 1 1 =
        cropRect (⟨1, 2, [[⟨10, 20, 30⟩, ⟨40, 50, 60⟩]]⟩ : Mat (Pix ℕ)) 0 1 1) ∧
     ((⟨true, 3, 0, 0, 0, 0, false, 1, 0, 0, 0, 0⟩ : EffectSettings).right_eye_enabled = false →
      cropRect (⟨1, 2, [[⟨30, 60, 90⟩, ⟨40, 50, 60⟩]]⟩ : Mat (Pix ℕ)) 1 1 1 =
        cropRect (⟨1, 2, [[⟨10, 20, 30⟩, ⟨40, 50, 60⟩]]⟩ : Mat (Pix ℕ)) 1 1 1)) := by
  have hwf : Mat.WF (⟨1, 2, [[⟨10, 20, 30⟩, ⟨40, 50, 60⟩]]⟩ : Mat (Pix ℕ)) := by
    decide
  have hL : applyEffects ⟨true, 3, 0, 0, 0, 0⟩ [(1 : ℚ)]
      ⟨1, 1, [[⟨10, 20, 30⟩]]⟩ = some ⟨1, 1, [[⟨30, 60, 90⟩]]⟩ := by
    norm_num [applyEffects, floatPipeline, contrastStage, tintStage, fogStage,
      stretchStage, toFloatMat, quantMat, mapMat, Pix.cmap, clamp01, quantByte,
      round_eq]
    decide
  have heval : processVideoFrame ⟨true, 3, 0, 0, 0, 0, false, 1, 0, 0, 0, 0⟩
      [(1 : ℚ)] ⟨1, 2, [[⟨10, 20, 30⟩, ⟨40, 50, 60⟩]]⟩ =
      some ⟨1, 2, [[⟨30, 60, 90⟩, ⟨40, 50, 60⟩]]⟩ := by
    norm_num [processVideoFrame, cropRect, copyToRect, writeRows, writeRow,
      zerosMat, leftSettings, rightSettings, hL]
  exact ⟨⟨hwf, heval⟩,
    C2_disabled_eye_copies_input _ _ _ _ hwf heval⟩

end VideoPlayerApp

namespace VideoPlayerApp

theorem ratTrunc_zero : ratTrunc 0 = 0 := by
  unfold ratTrunc
  simp

theorem ratTrunc_intCast (z : ℤ) : ratTrunc (z : ℚ) = z := by
  unfold ratTrunc
  split
  · exact Int.floor_intCast z
  · exact Int.ceil_intCast z

/-- C4 counterexample: a negative directional value on a nonempty half
produces no output at all.  With directional = -1/10 the stretch amount is
-2; a 1 by 4 half is resized to width 2 and then cropped with
`Rect(2, 0, 4, 1)`, which is out of range for the 2-pixel-wide resized
image, so the stage raises a `cv::Exception` — while the claim requires an
output whose dimensions equal the input dimensions, with content shifted
left. -/
theorem C4_negative_directional_raises :
    stretchStage (-1 / 10 : ℚ)
      ⟨1, 4, [[⟨1, 0, 0⟩, ⟨0, 1, 0⟩, ⟨0, 0, 1⟩, ⟨1, 1, 1⟩]]⟩ = none := by
  have ht : ratTrunc ((-1 / 10 : ℚ) * 20) = -2 := by
    rw [show ((-1 / 10 : ℚ) * 20) = ((-2 : ℤ) : ℚ) by norm_num, ratTrunc_intCast]
  unfold stretchStage
  rw [if_neg (by norm_num), if_neg (by rw [ht]; omega), ht]
  rw [resizeHor]
  rw [if_neg (by norm_num)]
  rw [Option.some_bind, if_neg (by omega)]
  rw [cropRect, if_neg]
  intro hcontra
  simp at hcontra

/-- C4 amended: the stretch amount is `directional * 20` truncated toward
zero (a C cast, not a round).  Amount 0 skips the stage (identity); a
positive amount resizes the half to `cols + amount` and crops back to the
original width from the leading edge, so the output dimensions equal the
input dimensions; a negative amount makes the crop rectangle out of range
and the stage raises, producing no output. -/
theorem C4_stretch_characterization (d : ℚ) (m : Mat (Pix ℚ)) :
    (ratTrunc (d * 20) = 0 → stretchStage d m = some m) ∧
    (0 < ratTrunc (d * 20) → 0 < m.rows → 0 < m.cols →
      ∃ st, resizeHor m ((m.cols : ℤ) + ratTrunc (d * 20)) = some st ∧
        stretchStage d m = cropRect st 0 m.cols m.rows ∧
        ∀ rr, stretchStage d m = some rr →
          rr.rows = m.rows ∧ rr.cols = m.cols) ∧
    (ratTrunc (d * 20) < 0 → stretchStage d m = none) := by
  refine ⟨?_, ?_, ?_⟩
  · intro ht
    unfold stretchStage
    rw [if_pos ht]
    split
    · rfl
    · rfl
  · intro ht hr hc
    have hd : d ≠ 0 := by
      intro hd0
      rw [hd0] at ht
      norm_num [ratTrunc_zero] at ht
    unfold stretchStage
    rw [if_neg hd, if_neg (by omega)]
    rw [resizeHor, if_neg (by push_neg; refine ⟨by omega, by omega, by omega⟩)]
    refine ⟨_, rfl, ?_, ?_⟩
    · rw [Option.some_bind, if_pos ht]
    · intro rr hrr
      rw [Option.some_bind, if_pos ht] at hrr
      exact cropRect_fields hrr
  · intro ht
    have hd : d ≠ 0 := by
      intro hd0
      rw [hd0] at ht
      norm_num [ratTrunc_zero] at ht
    unfold stretchStage
    rw [if_neg hd, if_neg (by omega)]
    rw [resizeHor]
    split
    · rfl
    · rename_i hcond
      push_neg at hcond
      rw [Option.some_bind, if_neg (by omega)]
      rw [cropRect, if_neg]
      intro hcontra
      obtain ⟨h1, _⟩ := hcontra
      simp only at h1
      omega

/-- C4 witness: the negative branch at directional = -1/4 on a 1 by 2
half. -/
theorem C4_stretch_characterization_witness :
    ratTrunc ((-1 / 4 : ℚ) * 20) < 0 ∧
    stretchStage (-1 / 4 : ℚ) ⟨1, 2, [[⟨1, 1, 1⟩, ⟨0, 0, 0⟩]]⟩ = none := by
  have ht : ratTrunc ((-1 / 4 : ℚ) * 20) = -5 := by
    rw [show ((-1 / 4 : ℚ) * 20) = ((-5 : ℤ) : ℚ) by norm_num, ratTrunc_intCast]
  exact ⟨by omega, (C4_stretch_characterization _ _).2.2 (by omega)⟩

end VideoPlayerApp

namespace VideoPlayerApp

/-- C6 counterexample: with a valid shader program but a null distortion
renderer, `OnDrawFrame` returns immediately and issues no call at all — no
flat split-quad draw, no render of any kind — refuting the claim that a draw
tick still renders via a flat fallback path. -/
theorem C6_null_renderer_draws_nothing :
    onDrawFrame ⟨1, 2, 3, some 4, none, some 5, ⟨0, 0, []⟩, false,
      zerosMat 512 512, 100, 200, 180, "", ⟨true, 1, 0, 0, 0, 0, false, 1, 0, 0, 0, 0⟩, 10⟩ =
    (⟨1, 2, 3, some 4, none, some 5, ⟨0, 0, []⟩, false,
      zerosMat 512 512, 100, 200, 180, "", ⟨true, 1, 0, 0, 0, 0, false, 1, 0, 0, 0, 0⟩, 10⟩,
     ([] : List GlEvent)) := by
  unfold onDrawFrame
  rw [if_pos (Or.inr rfl)]

/-- C6 amended: `OnDrawFrame` renders nothing when the program or the
distortion renderer handle is null (it returns before any call); only when
both are present does it render, and then only through the distortion
renderer — the flat-quad geometry set up in `InitializeGl` is never drawn. -/
theorem C6_amended_draw_guard (s : AppState) :
    ((s.program = 0 ∨ s.distortion_renderer = none) → onDrawFrame s = (s, [])) ∧
    (s.program ≠ 0 → s.distortion_renderer ≠ none →
      GlEvent.renderEyeToDisplay s.texture_id s.screen_width s.screen_height ∈
        (onDrawFrame s).2) := by
  constructor
  · intro h
    unfold onDrawFrame
    rw [if_pos h]
  · intro h1 h2
    unfold onDrawFrame
    rw [if_neg (by tauto)]
    simp

/-- C6 witness: the rendering branch at a concrete state with both handles
present. -/
theorem C6_amended_draw_guard_witness :
    ((⟨1, 2, 3, some 4, some 7, some 5, ⟨0, 0, []⟩, false, zerosMat 512 512,
        100, 200, 180, "", ⟨true, 1, 0, 0, 0, 0, false, 1, 0, 0, 0, 0⟩,
        10⟩ : AppState).program ≠ 0 ∧
     (⟨1, 2, 3, some 4, some 7, some 5, ⟨0, 0, []⟩, false, zerosMat 512 512,
        100, 200, 180, "", ⟨true, 1, 0, 0, 0, 0, false, 1, 0, 0, 0, 0⟩,
        10⟩ : AppState).distortion_renderer ≠ none) ∧
    GlEvent.renderEyeToDisplay 3 100 200 ∈
      (onDrawFrame ⟨1, 2, 3, some 4, some 7, some 5, ⟨0, 0, []⟩, false,
        zerosMat 512 512, 100, 200, 180, "",
        ⟨true, 1, 0, 0, 0, 0, false, 1, 0, 0, 0, 0⟩, 10⟩).2 :=
  ⟨⟨by decide, by decide⟩,
    (C6_amended_draw_guard _).2 (by decide) (by decide)⟩

/-- C7 counterexample: `SetScreenParams` does not preserve the head tracker
handle.  At a state whose tracker handle is 5 (fresh ids from 10), the
tracker after the call is the newly created handle 11. -/
theorem C7_head_tracker_replaced :
    (setScreenParams ⟨1, 2, 3, some 4, some 6, some 5, ⟨0, 0, []⟩, false,
        zerosMat 512 512, 100, 200, 180, "",
        ⟨true, 1, 0, 0, 0, 0, false, 1, 0, 0, 0, 0⟩, 10⟩ 640 480).1.head_tracker ≠
      (⟨1, 2, 3, some 4, some 6, some 5, ⟨0, 0, []⟩, false, zerosMat 512 512,
        100, 200, 180, "", ⟨true, 1, 0, 0, 0, 0, false, 1, 0, 0, 0, 0⟩,
        10⟩ : AppState).head_tracker := by
  decide

/-- C7 amended: `SetScreenParams(w, h)` stores the new dimensions and
destroys exactly the lens-distortion and distortion-renderer handles (never
the head tracker), but then `InitializeCardboard` recreates all three
handles: the head tracker is replaced by a fresh one (the old handle is
dropped without being destroyed).  All fields other than the screen
dimensions, the three handles and the fresh-id counter are unchanged. -/
theorem C7_amended_setScreenParams (s : AppState) (w h : ℤ) :
    ((setScreenParams s w h).1.screen_width = w ∧
     (setScreenParams s w h).1.screen_height = h ∧
     (setScreenParams s w h).1.head_tracker = some (s.next_handle + 1) ∧
     (setScreenParams s w h).1.lens_distortion = some (s.next_handle + 2) ∧
     (setScreenParams s w h).1.distortion_renderer = some (s.next_handle + 3)) ∧
    ((∀ n, GlEvent.destroyHeadTracker n ∉ (setScreenParams s w h).2) ∧
     (∀ l, s.lens_distortion = some l →
        GlEvent.destroyLensDistortion l ∈ (setScreenParams s w h).2) ∧
     (∀ rr, s.distortion_renderer = some rr →
        GlEvent.destroyDistortionRenderer rr ∈ (setScreenParams s w h).2)) ∧
    ((setScreenParams s w h).1.program = s.program ∧
     (setScreenParams s w h).1.vertex_buffer = s.vertex_buffer ∧
     (setScreenParams s w h).1.texture_id = s.texture_id ∧
     (setScreenParams s w h).1.processed_frame = s.processed_frame ∧
     (setScreenParams s w h).1.frame_updated = s.frame_updated ∧
     (setScreenParams s w h).1.texture_contents = s.texture_contents ∧
     (setScreenParams s w h).1.fov_degrees = s.fov_degrees ∧
     (setScreenParams s w h).1.video_uri = s.video_uri ∧
     (setScreenParams s w h).1.effect_settings = s.effect_settings) := by
  refine ⟨⟨rfl, rfl, rfl, rfl, rfl⟩, ⟨?_, ?_, ?_⟩,
    ⟨rfl, rfl, rfl, rfl, rfl, rfl, rfl, rfl, rfl⟩⟩
  · intro n
    unfold setScreenParams initializeCardboard
    cases s.lens_distortion <;> cases s.distortion_renderer <;> simp
  · intro l hl
    unfold setScreenParams initializeCardboard
    rw [hl]
    cases s.distortion_renderer <;> simp
  · intro rr hr
    unfold setScreenParams initializeCardboard
    rw [hr]
    cases s.lens_distortion <;> simp

/-- C7 witness: concrete state and dimensions. -/
theorem C7_amended_setScreenParams_witness :
    ((⟨1, 2, 3, some 4, some 6, some 5, ⟨0, 0, []⟩, false, zerosMat 512 512,
        100, 200, 180, "", ⟨true, 1, 0, 0, 0, 0, false, 1, 0, 0, 0, 0⟩,
        10⟩ : AppState).lens_distortion = some 4 ∧
     (⟨1, 2, 3, some 4, some 6, some 5, ⟨0, 0, []⟩, false, zerosMat 512 512,
        100, 200, 180, "", ⟨true, 1, 0, 0, 0, 0, false, 1, 0, 0, 0, 0⟩,
        10⟩ : AppState).distortion_renderer = some 6) ∧
    GlEvent.destroyLensDistortion 4 ∈
      (setScreenParams ⟨1, 2, 3, some 4, some 6, some 5, ⟨0, 0, []⟩, false,
        zerosMat 512 512, 100, 200, 180, "",
        ⟨true, 1, 0, 0, 0, 0, false, 1, 0, 0, 0, 0⟩, 10⟩ 640 480).2 ∧
    GlEvent.destroyDistortionRenderer 6 ∈
      (setScreenParams ⟨1, 2, 3, some 4, some 6, some 5, ⟨0, 0, []⟩, false,
        zerosMat 512 512, 100, 200, 180, "",
        ⟨true, 1, 0, 0, 0, 0, false, 1, 0, 0, 0, 0⟩, 10⟩ 640 480).2 :=
  ⟨⟨rfl, rfl⟩,
    (C7_amended_setScreenParams _ 640 480).2.1.2.1 4 rfl,
    (C7_amended_setScreenParams _ 640 480).2.1.2.2 6 rfl⟩

end VideoPlayerApp

namespace VideoPlayerApp

/-- C8 counterexample: the destructor destroy order in the source is
program, vertex buffer, texture, lens distortion, distortion renderer, head
tracker — not the claimed texture, buffer, program, head tracker, lens
distortion, distortion renderer.  At a state with all six handles non-null
the emitted sequence differs from the claimed one. -/
theorem C8_destructor_order_differs :
    destructorEvents ⟨1, 2, 3, some 4, some 5, some 6, ⟨0, 0, []⟩, false,
      ⟨0, 0, []⟩, 0, 0, 180, "", ⟨true, 1, 0, 0, 0, 0, false, 1, 0, 0, 0, 0⟩, 7⟩ ≠
    [GlEvent.deleteTexture 3, GlEvent.deleteBuffer 2, GlEvent.deleteProgram 1,
     GlEvent.destroyHeadTracker 6, GlEvent.destroyLensDistortion 4,
     GlEvent.destroyDistortionRenderer 5] := by
  decide

/-- C8 amended: the destructor issues its destroy calls in the source order
program, vertex buffer, texture, lens distortion, distortion renderer, head
tracker, and each destroy call is issued only when the corresponding handle
is non-null (idempotent against already-null handles). -/
theorem C8_amended_destructor (s : AppState) :
    ((s.program = 0 → ∀ n, GlEvent.deleteProgram n ∉ destructorEvents s) ∧
     (s.vertex_buffer = 0 → ∀ n, GlEvent.deleteBuffer n ∉ destructorEvents s) ∧
     (s.texture_id = 0 → ∀ n, GlEvent.deleteTexture n ∉ destructorEvents s) ∧
     (s.lens_distortion = none →
       ∀ n, GlEvent.destroyLensDistortion n ∉ destructorEvents s) ∧
     (s.distortion_renderer = none →
       ∀ n, GlEvent.destroyDistortionRenderer n ∉ destructorEvents s) ∧
     (s.head_tracker = none →
       ∀ n, GlEvent.destroyHeadTracker n ∉ destructorEvents s)) ∧
    (∀ l rr t, s.program ≠ 0 → s.vertex_buffer ≠ 0 → s.texture_id ≠ 0 →
      s.lens_distortion = some l → s.distortion_renderer = some rr →
      s.head_tracker = some t →
      destructorEvents s =
        [GlEvent.deleteProgram s.program, GlEvent.deleteBuffer s.vertex_buffer,
         GlEvent.deleteTexture s.texture_id, GlEvent.destroyLensDistortion l,
         GlEvent.destroyDistortionRenderer rr, GlEvent.destroyHeadTracker t]) := by
  constructor
  · refine ⟨?_, ?_, ?_, ?_, ?_, ?_⟩ <;>
    · intro h n
      unfold destructorEvents
      rw [h]
      cases hl : s.lens_distortion <;> cases hr : s.distortion_renderer <;>
        cases ht : s.head_tracker <;> simp [hl, hr, ht]
  · intro l rr t h1 h2 h3 h4 h5 h6
    unfold destructorEvents
    rw [if_pos h1, if_pos h2, if_pos h3, h4, h5, h6]
    simp

/-- C8 witness: the full-handles branch at a concrete state. -/
theorem C8_amended_destructor_witness :
    ((7 : ℕ) ≠ 0 ∧ (8 : ℕ) ≠ 0 ∧ (9 : ℕ) ≠ 0) ∧
    destructorEvents ⟨7, 8, 9, some 10, some 11, some 12, ⟨0, 0, []⟩, false,
      ⟨0, 0, []⟩, 0, 0, 180, "", ⟨true, 1, 0, 0, 0, 0, false, 1, 0, 0, 0, 0⟩, 13⟩ =
      [GlEvent.deleteProgram 7, GlEvent.deleteBuffer 8, GlEvent.deleteTexture 9,
       GlEvent.destroyLensDistortion 10, GlEvent.destroyDistortionRenderer 11,
       GlEvent.destroyHeadTracker 12] :=
  ⟨⟨by decide, by decide, by decide⟩,
    (C8_amended_destructor _).2 10 11 12 (by decide) (by decide) (by decide)
      rfl rfl rfl⟩

/-- C9 counterexample: with no frame pushed (`frame_updated_` false), a
render tick does nothing at all: no texture upload is issued and the state
— texture contents included — is unchanged, so consecutive no-frame ticks
keep identical texture contents, refuting the claim that each tick uploads
a time-varying procedural 512 by 512 placeholder. -/
theorem C9_no_placeholder_upload :
    renderVideoFrame ⟨1, 2, 3, some 4, some 5, some 6, ⟨0, 0, []⟩, false,
      zerosMat 512 512, 100, 200, 180, "",
      ⟨true, 1, 0, 0, 0, 0, false, 1, 0, 0, 0, 0⟩, 7⟩ =
    (⟨1, 2, 3, some 4, some 5, some 6, ⟨0, 0, []⟩, false, zerosMat 512 512,
      100, 200, 180, "", ⟨true, 1, 0, 0, 0, 0, false, 1, 0, 0, 0, 0⟩, 7⟩,
     ([] : List GlEvent)) := by
  unfold renderVideoFrame
  rw [if_pos rfl]

/-- C9 amended: when no frame has been pushed, `RenderVideoFrame` returns
immediately — no upload event, state unchanged — and a whole draw tick
leaves the state (texture handle and texture contents included) unchanged;
the texture holds the black 512 by 512 image written once by
`InitializeGl`, not an animated placeholder. -/
theorem C9_amended_no_frame_tick (s : AppState)
    (h : s.frame_updated = false) :
    renderVideoFrame s = (s, []) ∧ (onDrawFrame s).1 = s ∧
    (initializeGl s).texture_contents = zerosMat 512 512 := by
  have hr : renderVideoFrame s = (s, []) := by
    unfold renderVideoFrame
    rw [if_pos h]
  refine ⟨hr, ?_, rfl⟩
  unfold onDrawFrame
  split
  · rfl
  · rw [hr]

/-- C9 witness: a concrete no-frame state. -/
theorem C9_amended_no_frame_tick_witness :
    ((⟨1, 2, 3, some 4, some 5, some 6, ⟨0, 0, []⟩, false, zerosMat 512 512,
        100, 200, 180, "", ⟨true, 1, 0, 0, 0, 0, false, 1, 0, 0, 0, 0⟩,
        7⟩ : AppState).frame_updated = false) ∧
    (renderVideoFrame ⟨1, 2, 3, some 4, some 5, some 6, ⟨0, 0, []⟩, false,
        zerosMat 512 512, 100, 200, 180, "",
        ⟨true, 1, 0, 0, 0, 0, false, 1, 0, 0, 0, 0⟩, 7⟩ =
      (⟨1, 2, 3, some 4, some 5, some 6, ⟨0, 0, []⟩, false, zerosMat 512 512,
        100, 200, 180, "", ⟨true, 1, 0, 0, 0, 0, false, 1, 0, 0, 0, 0⟩, 7⟩, []) ∧
     (onDrawFrame ⟨1, 2, 3, some 4, some 5, some 6, ⟨0, 0, []⟩, false,
        zerosMat 512 512, 100, 200, 180, "",
        ⟨true, 1, 0, 0, 0, 0, false, 1, 0, 0, 0, 0⟩, 7⟩).1 =
      ⟨1, 2, 3, some 4, some 5, some 6, ⟨0, 0, []⟩, false, zerosMat 512 512,
        100, 200, 180, "", ⟨true, 1, 0, 0, 0, 0, false, 1, 0, 0, 0, 0⟩, 7⟩ ∧
     (initializeGl ⟨1, 2, 3, some 4, some 5, some 6, ⟨0, 0, []⟩, false,
        zerosMat 512 512, 100, 200, 180, "",
        ⟨true, 1, 0, 0, 0, 0, false, 1, 0, 0, 0, 0⟩, 7⟩).texture_contents =
      zerosMat 512 512) :=
  ⟨rfl, C9_amended_no_frame_tick _ rfl⟩

end VideoPlayerApp

namespace VideoPlayerApp

/-!
Lemmas for the raw (non-OpenCV) frame copy. -/

theorem copyPixel_hit (input : ℕ → ℕ) (si di : ℕ) (b : ℕ → ℕ) {cdx : ℕ}
    (hc : cdx < 4) : copyPixel input si di b (di + cdx) = input (si + cdx) := by
  unfold copyPixel writeByte
  split_ifs with h1 h2 h3 h4
  · have hx : cdx = 3 := by omega
    subst hx; rfl
  · have hx : cdx = 2 := by omega
    subst hx; rfl
  · have hx : cdx = 1 := by omega
    subst hx; rfl
  · have hx : cdx = 0 := by omega
    subst hx; rfl
  · exfalso; omega

theorem copyPixel_untouched (input : ℕ → ℕ) (si di : ℕ) (b : ℕ → ℕ) {j : ℕ}
    (h : ∀ cdx < 4, j ≠ di + cdx) : copyPixel input si di b j = b j := by
  unfold copyPixel writeByte
  split_ifs with h1 h2 h3 h4
  · exfalso; have := h 3 (by omega); omega
  · exfalso; have := h 2 (by omega); omega
  · exfalso; have := h 1 (by omega); omega
  · exfalso; have := h 0 (by omega); omega
  · rfl

theorem processPixelRaw_untouched (input : ℕ → ℕ) (w hw y x : ℕ) (b : ℕ → ℕ)
    {j : ℕ} (hL : ∀ cdx < 4, j ≠ (y * w + x) * 4 + cdx)
    (hR : ∀ cdx < 4, j ≠ (y * w + (x + hw)) * 4 + cdx) :
    processPixelRaw input w hw y x b j = b j := by
  unfold processPixelRaw
  rw [copyPixel_untouched _ _ _ _ hR, copyPixel_untouched _ _ _ _ hL]

theorem processPixelRaw_left (input : ℕ → ℕ) (w hw y x : ℕ) (b : ℕ → ℕ)
    {cdx : ℕ} (hhw : 0 < hw) (hc : cdx < 4) :
    processPixelRaw input w hw y x b ((y * w + x) * 4 + cdx) =
      input ((y * w + x) * 4 + cdx) := by
  unfold processPixelRaw
  rw [copyPixel_untouched _ _ _ _ (by
    intro c' hc' hcontra
    generalize y * w = B at hcontra
    omega)]
  exact copyPixel_hit _ _ _ _ hc

theorem processPixelRaw_right (input : ℕ → ℕ) (w hw y x : ℕ) (b : ℕ → ℕ)
    {cdx : ℕ} (hc : cdx < 4) :
    processPixelRaw input w hw y x b ((y * w + (x + hw)) * 4 + cdx) =
      input ((y * w + x) * 4 + cdx) := by
  unfold processPixelRaw
  exact copyPixel_hit _ _ _ _ hc

theorem rowcol_ne {w yA yB colA colB : ℕ} (hA : colA < w) (hB : colB < w)
    (hy : yA ≠ yB) : yA * w + colA ≠ yB * w + colB := by
  rcases Nat.lt_or_ge yA yB with h | h
  · have hmul : (yA + 1) * w ≤ yB * w := Nat.mul_le_mul_right w (by omega)
    have h1 : yA * w + colA < yB * w + colB := by
      calc yA * w + colA < yA * w + w := by omega
        _ = (yA + 1) * w := by ring
        _ ≤ yB * w := hmul
        _ ≤ yB * w + colB := by omega
    omega
  · have hy2 : yB < yA := by omega
    have hmul : (yB + 1) * w ≤ yA * w := Nat.mul_le_mul_right w (by omega)
    have h1 : yB * w + colB < yA * w + colA := by
      calc yB * w + colB < yB * w + w := by omega
        _ = (yB + 1) * w := by ring
        _ ≤ yA * w := hmul
        _ ≤ yA * w + colA := by omega
    omega

theorem base4_ne {BA BB cA cB : ℕ} (h : BA ≠ BB) (hA : cA < 4) (hB : cB < 4) :
    BA * 4 + cA ≠ BB * 4 + cB := by omega

theorem processRow_aux_untouched (input : ℕ → ℕ) (w hw y j : ℕ) :
    ∀ (n : ℕ) (b : ℕ → ℕ),
      (∀ x < n, (∀ c' < 4, j ≠ (y * w + x) * 4 + c') ∧
        (∀ c' < 4, j ≠ (y * w + (x + hw)) * 4 + c')) →
      ((List.range n).foldl (fun bb x => processPixelRaw input w hw y x bb) b) j =
        b j := by
  intro n
  induction n with
  | zero => intro b _; rfl
  | succ n ih =>
      intro b h
      rw [List.range_succ, List.foldl_append]
      simp only [List.foldl_cons, List.foldl_nil]
      rw [processPixelRaw_untouched _ _ _ _ _ _ (h n (by omega)).1 (h n (by omega)).2]
      exact ih b (fun x hx => h x (by omega))

theorem processRow_aux_hit (input : ℕ → ℕ) (w hw y x0 v j : ℕ)
    (hself : ∀ bb : ℕ → ℕ, processPixelRaw input w hw y x0 bb j = v)
    (hother : ∀ x, ∀ bb : ℕ → ℕ, x ≠ x0 → x < hw →
      processPixelRaw input w hw y x bb j = bb j) :
    ∀ (n : ℕ) (b : ℕ → ℕ), x0 < n → n ≤ hw →
      ((List.range n).foldl (fun bb x => processPixelRaw input w hw y x bb) b) j =
        v := by
  intro n
  induction n with
  | zero => intro b h _; omega
  | succ n ih =>
      intro b hx0 hn
      rw [List.range_succ, List.foldl_append]
      simp only [List.foldl_cons, List.foldl_nil]
      by_cases hx : x0 = n
      · subst hx
        exact hself _
      · rw [hother n _ (fun hne => hx hne.symm) (by omega)]
        exact ih b (by omega) (by omega)

theorem processRowRaw_at_left (input : ℕ → ℕ) (w hw y x0 : ℕ) (b : ℕ → ℕ)
    {cdx : ℕ} (hx0 : x0 < hw) (hc : cdx < 4) :
    processRowRaw input w hw y b ((y * w + x0) * 4 + cdx) =
      input ((y * w + x0) * 4 + cdx) := by
  unfold processRowRaw
  exact processRow_aux_hit input w hw y x0 _ _
    (fun bb => processPixelRaw_left input w hw y x0 bb (by omega) hc)
    (fun x bb hne hxlt => processPixelRaw_untouched input w hw y x bb
      (by
        intro c' hc' hcontra
        generalize y * w = B at hcontra
        omega)
      (by
        intro c' hc' hcontra
        generalize y * w = B at hcontra
        omega))
    hw b hx0 (le_refl hw)

theorem processRowRaw_at_right (input : ℕ → ℕ) (w hw y x0 : ℕ) (b : ℕ → ℕ)
    {cdx : ℕ} (hx0 : x0 < hw) (hc : cdx < 4) :
    processRowRaw input w hw y b ((y * w + (x0 + hw)) * 4 + cdx) =
      input ((y * w + x0) * 4 + cdx) := by
  unfold processRowRaw
  exact processRow_aux_hit input w hw y x0 _ _
    (fun bb => processPixelRaw_right input w hw y x0 bb hc)
    (fun x bb hne hxlt => processPixelRaw_untouched input w hw y x bb
      (by
        intro c' hc' hcontra
        generalize y * w = B at hcontra
        omega)
      (by
        intro c' hc' hcontra
        generalize y * w = B at hcontra
        omega))
    hw b hx0 (le_refl hw)

theorem processRowRaw_other_row (input : ℕ → ℕ) (w y y0 col0 : ℕ) (b : ℕ → ℕ)
    {cdx : ℕ} (hcol0 : col0 < w) (hc : cdx < 4) (hy : y ≠ y0) :
    processRowRaw input w (w / 2) y b ((y0 * w + col0) * 4 + cdx) =
      b ((y0 * w + col0) * 4 + cdx) := by
  unfold processRowRaw
  apply processRow_aux_untouched
  intro x hx
  constructor
  · intro c' hc'
    exact base4_ne (rowcol_ne hcol0 (by omega) (fun he => hy he.symm)) hc hc'
  · intro c' hc'
    exact base4_ne (rowcol_ne hcol0 (by omega) (fun he => hy he.symm)) hc hc'

end VideoPlayerApp

namespace VideoPlayerApp

theorem processFrame_aux_hit (input : ℕ → ℕ) (w y0 v j : ℕ)
    (hself : ∀ bb : ℕ → ℕ, processRowRaw input w (w / 2) y0 bb j = v)
    (hother : ∀ y, ∀ bb : ℕ → ℕ, y ≠ y0 →
      processRowRaw input w (w / 2) y bb j = bb j) :
    ∀ (n : ℕ) (b : ℕ → ℕ), y0 < n →
      ((List.range n).foldl (fun bb y => processRowRaw input w (w / 2) y bb) b) j =
        v := by
  intro n
  induction n with
  | zero => intro b h; omega
  | succ n ih =>
      intro b hy0
      rw [List.range_succ, List.foldl_append]
      simp only [List.foldl_cons, List.foldl_nil]
      by_cases hy : y0 = n
      · subst hy
        exact hself _
      · rw [hother n _ (fun hne => hy hne.symm)]
        exact ih b (by omega)

/-- C10: the non-OpenCV `ProcessVideoFrame` writes the left half of the
input frame (the first width/2 RGBA columns) into both the left and the
right half of the output buffer, ignoring the right half of the input and
every effect setting (the function neither reads the input beyond the left
half for these bytes nor consults any setting — it takes none). -/
theorem C10_raw_mirrored_duplicate (input buf : ℕ → ℕ) (w h y x cdx : ℕ)
    (hy : y < h) (hx : x < w / 2) (hc : cdx < 4) :
    processVideoFrameRaw input w h buf ((y * w + x) * 4 + cdx) =
      input ((y * w + x) * 4 + cdx) ∧
    processVideoFrameRaw input w h buf ((y * w + (x + w / 2)) * 4 + cdx) =
      input ((y * w + x) * 4 + cdx) := by
  constructor
  · unfold processVideoFrameRaw
    exact processFrame_aux_hit input w y _ _
      (fun bb => processRowRaw_at_left input w (w / 2) y x bb hx hc)
      (fun y' bb hy' => processRowRaw_other_row input w y' y x bb
        (by omega) hc hy')
      h buf hy
  · unfold processVideoFrameRaw
    exact processFrame_aux_hit input w y _ _
      (fun bb => processRowRaw_at_right input w (w / 2) y x bb hx hc)
      (fun y' bb hy' => processRowRaw_other_row input w y' y (x + w / 2) bb
        (by omega) hc hy')
      h buf hy

/-- C10 witness at a concrete buffer and geometry. -/
theorem C10_raw_mirrored_duplicate_witness :
    ((0 : ℕ) < 1 ∧ (1 : ℕ) < 4 / 2 ∧ (2 : ℕ) < 4) ∧
    (processVideoFrameRaw (fun i => 100 + i) 4 1 (fun _ => 0)
        ((0 * 4 + 1) * 4 + 2) = (fun i => 100 + i) ((0 * 4 + 1) * 4 + 2) ∧
     processVideoFrameRaw (fun i => 100 + i) 4 1 (fun _ => 0)
        ((0 * 4 + (1 + 4 / 2)) * 4 + 2) = (fun i => 100 + i) ((0 * 4 + 1) * 4 + 2)) :=
  ⟨⟨by decide, by decide, by decide⟩,
    C10_raw_mirrored_duplicate (fun i => 100 + i) (fun _ => 0) 4 1 0 1 2
      (by decide) (by decide) (by decide)⟩

end VideoPlayerApp
